import Mathlib

/-!
Verification of the TradingAgents entry script and its orchestration-core
design contract.  The repository's visible code is the entry script
`main.py`; the orchestration core it calls (package `tradingagents`) is not
part of the visible sources, so the core is modelled from the design
specification, while the configuration phase of `main.py` is embedded
directly.
-/

namespace TradingAgents

/-- Modelled from the spec: a Query is the immutable input to one
orchestration run, `{symbol, as_of_date}` (§3). -/
structure Query where
  symbol : String
  as_of_date : String
deriving DecidableEq

/-- Modelled from the spec: the error taxonomy of §7 for backend and tool
failures occurring during a run. -/
inductive ErrorKind
  | backendUnavailable
  | backendOverflow
  | backendMalformedOutput
  | toolError
deriving DecidableEq

/-- Modelled from the spec: the two adversarial researcher roles (§4.3). -/
inductive Speaker
  | bull
  | bear
deriving DecidableEq, Fintype

/-- Modelled from the spec: the action of a trading Decision (§3). -/
inductive Action
  | buy
  | sell
  | hold
deriving DecidableEq

/-- Modelled from the spec: one slot in the run's fixed model-call schedule.
Each role call of a run is identified by the role making it (analyst by
name, debate researcher by speaker and round, trader, risk reviewer). -/
inductive CallKey
  | analyst (name : String)
  | debate (speaker : Speaker) (round : Nat)
  | trader
  | risk
deriving DecidableEq

/-- Modelled from the spec: a MemoryRecord of the Shared Memory Store:
`{query-independent decision id, realized_return, lesson, created_at}`;
append-only, never mutated (§3). -/
structure MemoryRecord where
  decision_id : Nat
  realized_return : Int
  lesson : String
  created_at : Nat
deriving DecidableEq

/-- Modelled from the spec: the outcome of one role-level model call, after
the Model Client Adapter's retry policy has run its course: a successful
text, a role-local absorbable failure (tool failure, truncation,
overflow/malformed degradation), or a hard failure (repeated
BackendUnavailable beyond the retry budget). -/
inductive RoleOutcome
  | ok (text : String)
  | absorbable (e : ErrorKind)
  | hard (e : ErrorKind)
deriving DecidableEq

/-- Modelled from the spec: the model backend abstraction seen by the
orchestration layer.  A role call is keyed by its CallKey; the prompt the
role composes may read the Shared Memory Store, so the outcome may depend
on the store contents. -/
abbrev Oracle := CallKey → List MemoryRecord → RoleOutcome

/-- Modelled from the spec: an AnalystBrief `{role_name, query, content}`
(§3), with the degradation annotation of §7 (a failed tool call or model
degradation is reported inline, not as an orchestration-level failure). -/
structure AnalystBrief where
  role_name : String
  query : Query
  content : String
  degraded : Bool
  degradedReason : Option ErrorKind
deriving DecidableEq

/-- Modelled from the spec: a DebateTurn `{round_index, speaker, content,
responds_to}` (§3), plus the flagged truncation marker of §4.3. -/
structure DebateTurn where
  round_index : Nat
  speaker : Speaker
  content : String
  truncated : Bool
  responds_to : Option Nat
deriving DecidableEq

/-- Modelled from the spec: the states of the Researcher Debate Pair state
machine (§4.3). -/
inductive DebatePhase
  | AWAITING_OPENING
  | BULL_TURN
  | BEAR_TURN
  | CONCLUDED
deriving DecidableEq

/-- Modelled from the spec: the running state of the debate state machine:
current phase, number of completed rounds, transcript so far. -/
structure DebateState where
  phase : DebatePhase
  round : Nat
  transcript : List DebateTurn
deriving DecidableEq

/-- Modelled from the spec: a Decision (§3): action, rationale, whether an
adversarial review (debate) was performed, and the degradation reasons
collected from upstream inputs (§7). -/
structure Decision where
  action : Action
  rationale : String
  adversarialReviewPerformed : Bool
  degradedReasons : List ErrorKind
deriving DecidableEq

/-- Modelled from the spec: a FinalDecision (§3): the (possibly amended)
decision plus the override flag and reason from Risk/Manager Review. -/
structure FinalDecision where
  decision : Decision
  override_flag : Bool
  override_reason : Option String
deriving DecidableEq

/-- Modelled from the spec: the static risk-policy configuration read by
Risk/Manager Review (§4.5). -/
structure RiskPolicy where
  permissive : Bool
deriving DecidableEq

/-- Modelled from the spec: the RunTrace: the full ordered log of briefs,
debate turns, and the decision for one Query (§3). -/
structure RunTrace where
  briefs : List AnalystBrief
  transcript : List DebateTurn
  decision : Decision
deriving DecidableEq

/-- Modelled from the spec: the context of a hard role failure surfaced by
a strict run: which role, which query, which underlying error kind (§7). -/
structure RoleFailure where
  role : String
  query : Query
  kind : ErrorKind
deriving DecidableEq

/-- Modelled from the spec: the ways a run can stop without a
FinalDecision: a propagated role failure, or cancellation at a suspension
point (an in-flight model call, §5). -/
inductive RunErr
  | roleFailure (f : RoleFailure)
  | cancelled (atCall : Nat)
deriving DecidableEq

/-- Modelled from the spec: the immutable per-run context threaded through
the Orchestration Graph: strict-mode flag, debate round bound, backend
oracle, query, risk policy, and an optional cancellation point (the index
of the model call before which the run is cancelled). -/
structure RunCtx where
  strict : Bool
  maxDebateRounds : Nat
  oracle : Oracle
  q : Query
  policy : RiskPolicy
  cancelAt : Option Nat

/-- Modelled from the spec: the mutable run-level state: the number of
model calls made so far, and the Shared Memory Store contents. -/
structure RunSt where
  calls : Nat
  store : List MemoryRecord
deriving DecidableEq

/-- Modelled from the spec: the fixed analyst set (§2: fundamentals,
technicals, sentiment, news). -/
def analystRoles : List String :=
  ["fundamentals", "technicals", "sentiment", "news"]

/-- Modelled from the spec: whether a role outcome terminates the run: in
non-strict mode only hard failures do; in strict mode any role failure
propagates immediately (§7). -/
def failing (strict : Bool) : RoleOutcome → Bool
  | .ok _ => false
  | .absorbable _ => strict
  | .hard _ => true

/-- Modelled from the spec: whether an outcome is a hard failure. -/
def isHard : RoleOutcome → Bool
  | .hard _ => true
  | _ => false

/-- Modelled from the spec: the error kind carried by a failing outcome. -/
def failKind : RoleOutcome → ErrorKind
  | .ok _ => .toolError
  | .absorbable e => e
  | .hard e => e

/-- Modelled from the spec: the human-readable role name behind each call
slot, used to identify the failing role in strict-mode failures. -/
def roleNameOf : CallKey → String
  | .analyst n => n
  | .debate .bull _ => "bull_researcher"
  | .debate .bear _ => "bear_researcher"
  | .trader => "trader"
  | .risk => "risk_manager"

/-- Modelled from the spec: the text carried downstream for an outcome:
the model text on success, a degradation note otherwise. -/
def contentOf : RoleOutcome → String
  | .ok t => t
  | .absorbable _ => "degraded"
  | .hard _ => "unavailable"

/-- Modelled from the spec: parse a decision action out of model text. -/
def actionOf (t : String) : Action :=
  if t = "BUY" then .buy else if t = "SELL" then .sell else .hold

/-- Modelled from the spec: the single suspension-point primitive (§5): one
model call.  Checks the cancellation point, counts the call, consults the
backend oracle (which may read the store), and converts the outcome:
failing outcomes become a RoleFailure carrying role, query and error kind;
non-failing outcomes pass through for degradation handling. -/
def modelCall (ctx : RunCtx) (key : CallKey) (st : RunSt) :
    RunSt × Except RunErr RoleOutcome :=
  if ctx.cancelAt = some st.calls then
    (st, .error (.cancelled st.calls))
  else
    let st1 : RunSt := ⟨st.calls + 1, st.store⟩
    match ctx.oracle key st.store with
    | .ok t => (st1, .ok (.ok t))
    | .absorbable e =>
        if ctx.strict then (st1, .error (.roleFailure ⟨roleNameOf key, ctx.q, e⟩))
        else (st1, .ok (.absorbable e))
    | .hard e => (st1, .error (.roleFailure ⟨roleNameOf key, ctx.q, e⟩))

/-- Modelled from the spec: build an AnalystBrief from a role outcome: a
successful call yields the model text; an absorbable failure is reported
inline in the brief (§4.2). -/
def briefOf (q : Query) (role : String) : RoleOutcome → AnalystBrief
  | .ok t => ⟨role, q, t, false, none⟩
  | .absorbable e => ⟨role, q, contentOf (.absorbable e), true, some e⟩
  | .hard e => ⟨role, q, contentOf (.hard e), true, some e⟩

/-- Modelled from the spec: the Analyst Role contract
`analyze(query, model_tier, memory_lookup) -> AnalystBrief` (§4.2): a pure
function of the query, the backend, and the (read-only) memory store. -/
def analyze (oracle : Oracle) (q : Query) (mem : List MemoryRecord)
    (role : String) : AnalystBrief :=
  briefOf q role (oracle (.analyst role) mem)

/-- Modelled from the spec: sequencing of run stages (§4.6): a failure of
the current stage propagates; otherwise the continuation runs on the
updated run state. -/
def andThen {α β : Type} (x : RunSt × Except RunErr α)
    (f : α → RunSt → RunSt × Except RunErr β) : RunSt × Except RunErr β :=
  match x.2 with
  | .error e => (x.1, .error e)
  | .ok a => f a x.1

/-- Modelled from the spec: run the analyst roles in the given order
within a run, one model call each, absorbing role-local failures into the
briefs and propagating failing outcomes (§4.2, §7). -/
def runAnalysts (ctx : RunCtx) : List String → RunSt → RunSt × Except RunErr (List AnalystBrief)
  | [], st => (st, .ok [])
  | r :: rs, st =>
    andThen (modelCall ctx (.analyst r) st) fun oc st1 =>
      andThen (runAnalysts ctx rs st1) fun bs st2 =>
        (st2, .ok (briefOf ctx.q r oc :: bs))

/-- Modelled from the spec: build a DebateTurn from a role outcome: a turn
that would exceed the context budget is truncated with a flagged marker
rather than failing the run (§4.3); it responds to the immediately prior
turn when one exists. -/
def turnOf (sp : Speaker) (r : Nat) (prevLen : Nat) : RoleOutcome → DebateTurn
  | .ok t => ⟨r, sp, t, false, if prevLen = 0 then none else some (prevLen - 1)⟩
  | .absorbable e =>
      ⟨r, sp, contentOf (.absorbable e), true, if prevLen = 0 then none else some (prevLen - 1)⟩
  | .hard e =>
      ⟨r, sp, contentOf (.hard e), true, if prevLen = 0 then none else some (prevLen - 1)⟩

/-- Modelled from the spec: one transition of the Researcher Debate Pair
state machine (§4.3).  On entry the bull speaks first; turns alternate
bull/bear for exactly `max_debate_rounds` round-trips, then the machine
concludes; `max_debate_rounds = 0` transitions directly from
AWAITING_OPENING to CONCLUDED with an empty transcript. -/
def debateStep (ctx : RunCtx) (s : DebateState) (st : RunSt) :
    RunSt × Except RunErr DebateState :=
  match s.phase with
  | .AWAITING_OPENING =>
      (st, .ok { s with phase := if ctx.maxDebateRounds = 0 then .CONCLUDED else .BULL_TURN })
  | .BULL_TURN =>
      andThen (modelCall ctx (.debate .bull s.round) st) fun oc st1 =>
        (st1, .ok ⟨.BEAR_TURN, s.round,
          s.transcript ++ [turnOf .bull s.round s.transcript.length oc]⟩)
  | .BEAR_TURN =>
      andThen (modelCall ctx (.debate .bear s.round) st) fun oc st1 =>
        (st1, .ok ⟨if s.round + 1 < ctx.maxDebateRounds then .BULL_TURN else .CONCLUDED,
          s.round + 1,
          s.transcript ++ [turnOf .bear s.round s.transcript.length oc]⟩)
  | .CONCLUDED => (st, .ok s)

/-- Modelled from the spec: drive the debate state machine for at most the
given number of transitions, stopping at CONCLUDED (§4.3). -/
def driveDebate (ctx : RunCtx) : Nat → DebateState → RunSt → RunSt × Except RunErr DebateState
  | 0, s, st => (st, .ok s)
  | n + 1, s, st =>
    if s.phase = .CONCLUDED then (st, .ok s)
    else
      andThen (debateStep ctx s st) fun s1 st1 => driveDebate ctx n s1 st1

/-- Modelled from the spec: construct and drive the Researcher Debate Pair
state machine to completion (§4.6): `2 * max_debate_rounds + 1`
transitions always suffice (one entry transition plus two per round). -/
def runDebate (ctx : RunCtx) (st : RunSt) : RunSt × Except RunErr DebateState :=
  driveDebate ctx (2 * ctx.maxDebateRounds + 1) ⟨.AWAITING_OPENING, 0, []⟩ st

/-- Modelled from the spec: the degradation reasons a Decision lists,
collected from degraded briefs, truncated turns, and the trader call's own
outcome (§7). -/
def degradedReasonsOf (briefs : List AnalystBrief) (transcript : List DebateTurn)
    (oc : RoleOutcome) : List ErrorKind :=
  briefs.filterMap (fun b => b.degradedReason)
    ++ (transcript.filter (fun t => t.truncated)).map (fun _ => ErrorKind.backendOverflow)
    ++ (match oc with | .absorbable e => [e] | _ => [])

/-- Modelled from the spec: the Trader Role contract
`decide(query, briefs, transcript, memory_lookup) -> Decision` (§4.4):
always produces exactly one Decision; an empty transcript is treated as
"no adversarial review performed" rather than as an error (§4.3). -/
def decide (q : Query) (briefs : List AnalystBrief) (transcript : List DebateTurn)
    (oc : RoleOutcome) : Decision :=
  { action := actionOf (contentOf oc)
  , rationale := String.append (String.append "decision for " q.symbol) (contentOf oc)
  , adversarialReviewPerformed := !transcript.isEmpty
  , degradedReasons := degradedReasonsOf briefs transcript oc }

/-- Modelled from the spec: the Risk/Manager Review contract
`review(decision, query, risk_policy) -> FinalDecision` (§4.5): stateless;
may override with a more conservative action; never drops the original
rationale. -/
def review (d : Decision) (q : Query) (policy : RiskPolicy) (oc : RoleOutcome) :
    FinalDecision :=
  if policy.permissive then ⟨d, false, none⟩
  else if d.action = .buy then
    ⟨{ d with action := .hold }, true, some (contentOf oc)⟩
  else ⟨d, false, none⟩

/-- Modelled from the spec: the trader stage of a run: one model call,
then the synthesis step (§4.4). -/
def runTrader (ctx : RunCtx) (briefs : List AnalystBrief) (transcript : List DebateTurn)
    (st : RunSt) : RunSt × Except RunErr Decision :=
  andThen (modelCall ctx .trader st) fun oc st1 =>
    (st1, .ok (decide ctx.q briefs transcript oc))

/-- Modelled from the spec: the risk-review stage of a run: one model
call, then the adjudication step (§4.5). -/
def runRisk (ctx : RunCtx) (d : Decision) (st : RunSt) :
    RunSt × Except RunErr FinalDecision :=
  andThen (modelCall ctx .risk st) fun oc st1 =>
    (st1, .ok (review d ctx.q ctx.policy oc))

/-- Modelled from the spec: the Orchestration Graph contract
`run(query) -> (FinalDecision, RunTrace)` (§4.6): invoke the analysts,
drive the debate to completion, invoke the trader, invoke risk review,
assemble the trace. -/
def runGraph (ctx : RunCtx) (st : RunSt) :
    RunSt × Except RunErr (FinalDecision × RunTrace) :=
  andThen (runAnalysts ctx analystRoles st) fun briefs st1 =>
    andThen (runDebate ctx st1) fun ds st2 =>
      andThen (runTrader ctx briefs ds.transcript st2) fun dec st3 =>
        andThen (runRisk ctx dec st3) fun fd st4 =>
          (st4, .ok (fd, ⟨briefs, ds.transcript, dec⟩))

/-- Modelled from the spec: the debate slots of the call schedule: two per
round, bull before bear, rounds in order. -/
def debateKeys (r : Nat) : Nat → List CallKey
  | 0 => []
  | k + 1 => .debate .bull r :: .debate .bear r :: debateKeys (r + 1) k

/-- Modelled from the spec: the full static model-call schedule of one
run: the fixed analyst set, then the debate slots, then trader and risk
review (§4.6). -/
def callSchedule (n : Nat) : List CallKey :=
  analystRoles.map CallKey.analyst ++ debateKeys 0 n ++ [.trader, .risk]

/-- Modelled from the spec: the global upper bound on model calls per run,
derived from `max_debate_rounds` and the fixed analyst set (§4.6). -/
def modelCallBound (n : Nat) : Nat :=
  analystRoles.length + 2 * n + 2

/-- Modelled from the spec: the error raised at construction time by an
invalid configuration (§7). -/
inductive ConfigurationError
  | invalidProvider (name : String)
  | invalidDebateRounds (n : Int)
deriving DecidableEq

/-- Modelled from the spec: the provider families the Model Client Adapter
recognises (§4.1, §6; the entry script selects "llamacpp"). -/
def validProviders : List String :=
  ["openai", "anthropic", "google", "ollama", "openrouter", "llamacpp"]

/-- Modelled from the spec: the configuration surface consumed at graph
construction (§6). -/
structure TAConfig where
  llm_provider : String
  backend_url : String
  deep_think_llm : String
  quick_think_llm : String
  max_debate_rounds : Int
  online_tools : Bool
  strict : Bool
deriving DecidableEq

/-- Modelled from the spec: the constructed Orchestration Graph with its
validated, immutable configuration (§4.6, §9). -/
structure TradingAgentsGraph where
  provider : String
  maxDebateRounds : Nat
  strict : Bool
  debug : Bool
deriving DecidableEq

/-- Modelled from the spec: graph construction with configuration
validation (§7 lists ConfigurationError as fatal at construction time for
an invalid provider name or an invalid `max_debate_rounds`).  The spec's
§7 wording says "non-positive", but §4.3 and §8 explicitly require
`max_debate_rounds = 0` to be a supported edge case (direct transition to
CONCLUDED, trader still decides), so validation rejects only negative
values. -/
def mkTradingAgentsGraph (debug : Bool) (cfg : TAConfig) :
    Except ConfigurationError TradingAgentsGraph :=
  if cfg.llm_provider ∈ validProviders then
    if cfg.max_debate_rounds < 0 then .error (.invalidDebateRounds cfg.max_debate_rounds)
    else .ok ⟨cfg.llm_provider, cfg.max_debate_rounds.toNat, cfg.strict, debug⟩
  else .error (.invalidProvider cfg.llm_provider)

/-- Modelled from the spec: the primary entry operation
`propagate(symbol, as_of_date)` (§6), returning the trace and the final
decision. -/
def propagate (g : TradingAgentsGraph) (oracle : Oracle) (policy : RiskPolicy)
    (cancelAt : Option Nat) (symbol as_of_date : String) (st : RunSt) :
    RunSt × Except RunErr (RunTrace × FinalDecision) :=
  let ctx : RunCtx := ⟨g.strict, g.maxDebateRounds, oracle, ⟨symbol, as_of_date⟩, policy, cancelAt⟩
  andThen (runGraph ctx st) fun p st1 => (st1, .ok (p.2, p.1))

/-- Modelled from the spec: the qualitative lesson computed by the
Reflection Module (§4.7); always a non-empty text. -/
def mkLesson (id : Nat) (ret : Int) : String :=
  String.append "lesson for decision " (String.append (toString id)
    (String.append " with realized return " (toString ret)))

/-- Modelled from the spec: the secondary entry operation
`reflect_and_remember` (§4.7, §6): looks up a decision by id and appends
exactly one MemoryRecord to the Shared Memory Store; never mutates or
deletes existing records. -/
def reflect_and_remember (store : List MemoryRecord) (id : Nat) (ret : Int)
    (now : Nat) : List MemoryRecord :=
  store ++ [⟨id, ret, mkLesson id ret, now⟩]

/-- Modelled from the spec: the bounded exponential backoff delay before
retry attempt `attempt` (§4.1). -/
def backoffDelayMs (base cap attempt : Nat) : Nat :=
  min (base * 2 ^ attempt) cap

/-- Modelled from the spec: the Model Client Adapter retry loop (§4.1):
attempt the backend call; retry (up to the remaining budget) only on
BackendUnavailable; any other failure, and any success, ends the loop.
Returns the final result and the number of attempts consumed. -/
def completeRetry (backend : Nat → Except ErrorKind String) (attempt : Nat) :
    Nat → Except ErrorKind String × Nat
  | 0 => (.error .backendUnavailable, 0)
  | fuel + 1 =>
    match backend attempt with
    | .ok t => (.ok t, 1)
    | .error .backendUnavailable =>
      let r := completeRetry backend (attempt + 1) fuel
      (r.1, r.2 + 1)
    | .error e => (.error e, 1)

/-- Modelled from the spec: the adapter entry point
`complete(tier, prompt, role_context)` at the retry level (§4.1), with a
configured maximum attempt count. -/
def complete (backend : Nat → Except ErrorKind String) (maxAttempts : Nat) :
    Except ErrorKind String × Nat :=
  completeRetry backend 0 maxAttempts

/-- Modelled from the spec: how the adapter's final result is presented to
the triggering role call (§7): BackendOverflow and BackendMalformedOutput
degrade (truncation/degradation); BackendUnavailable beyond the retry
budget is a hard failure. -/
def adapterOutcome : Except ErrorKind String → RoleOutcome
  | .ok t => .ok t
  | .error .backendUnavailable => .hard .backendUnavailable
  | .error .backendOverflow => .absorbable .backendOverflow
  | .error .backendMalformedOutput => .absorbable .backendMalformedOutput
  | .error .toolError => .absorbable .toolError

/-- Possible values of one entry of the Python configuration dict in
`main.py`. -/
inductive ConfigVal
  | s (v : String)
  | n (v : Nat)
  | b (v : Bool)
deriving DecidableEq

/-- A Python dict as used by `main.py`: an association list keyed by
string, insertion-ordered. -/
abbrev Dict := List (String × ConfigVal)

/-- A heap of dict objects: `DEFAULT_CONFIG.copy()` allocates a fresh dict
object, so mutation of the copy is mutation of a different address. -/
abbrev Heap := List Dict

/-- Python dict assignment `d[k] = v`: overwrite the existing key in
place, or append a new entry. -/
def dictSet (d : Dict) (k : String) (v : ConfigVal) : Dict :=
  if d.any (fun p => p.1 = k) then
    d.map (fun p => if p.1 = k then (k, v) else p)
  else d ++ [(k, v)]

/-- Allocate a fresh dict object on the heap, returning its address. -/
def heapAlloc (h : Heap) (d : Dict) : Heap × Nat :=
  (h ++ [d], h.length)

/-- Read the dict object at an address. -/
def heapGet (h : Heap) (a : Nat) : Dict :=
  h.getD a []

/-- Assign one key of the dict object at an address. -/
def heapSet (h : Heap) (a : Nat) (k : String) (v : ConfigVal) : Heap :=
  h.set a (dictSet (heapGet h a) k v)

/-- The nine overrides `main.py` assigns to its config copy (lines 10-19),
with the exact keys and values of the script. -/
def mainOverrides : List (String × ConfigVal) :=
  [ ("llm_provider", .s "llamacpp")
  , ("backend_url", .s "http://localhost:8080/v1")
  , ("deep_think_llm", .s "models/gemma-3-4b-it-BF16.gguf")
  , ("quick_think_llm", .s "models/gemma-3-4b-it-BF16.gguf")
  , ("llamacpp_n_ctx", .n 131072)
  , ("llamacpp_n_batch", .n 1024)
  , ("llamacpp_n_gpu_layers", .n 80)
  , ("max_debate_rounds", .n 1)
  , ("online_tools", .b true) ]

/-- The configuration phase of `main.py` (lines 9-19): make a copy of the
dict object at `defaultAddr` (`config = DEFAULT_CONFIG.copy()`), then
perform the nine key assignments on the copy.  Returns the new heap and
the address of `config`. -/
def buildConfig (h : Heap) (defaultAddr : Nat) : Heap × Nat :=
  let alloc := heapAlloc h (heapGet h defaultAddr)
  (mainOverrides.foldl (fun hh kv => heapSet hh alloc.2 kv.1 kv.2) alloc.1, alloc.2)

/-- Modelled from the spec: the closed form of the debate transcript: the
turns of `k` rounds starting at round `r`, when the transcript already
holds `L` turns.  Bull speaks first in each round, bear responds. -/
def debateSeg (ctx : RunCtx) (mem : List MemoryRecord) : Nat → Nat → Nat → List DebateTurn
  | _, 0, _ => []
  | r, k + 1, L =>
      turnOf .bull r L (ctx.oracle (.debate .bull r) mem)
      :: turnOf .bear r (L + 1) (ctx.oracle (.debate .bear r) mem)
      :: debateSeg ctx mem (r + 1) k (L + 2)

/-- Modelled from the spec: the briefs a failure-free run produces: one
per analyst role, in the fixed order. -/
def briefsClosed (ctx : RunCtx) (mem : List MemoryRecord) : List AnalystBrief :=
  analystRoles.map (analyze ctx.oracle ctx.q mem)

/-- Modelled from the spec: the transcript a failure-free run produces. -/
def transcriptClosed (ctx : RunCtx) (mem : List MemoryRecord) : List DebateTurn :=
  debateSeg ctx mem 0 ctx.maxDebateRounds 0

/-- Modelled from the spec: the decision a failure-free run produces. -/
def decisionClosed (ctx : RunCtx) (mem : List MemoryRecord) : Decision :=
  decide ctx.q (briefsClosed ctx mem) (transcriptClosed ctx mem) (ctx.oracle .trader mem)

/-- Modelled from the spec: the final decision a failure-free run
produces. -/
def finalClosed (ctx : RunCtx) (mem : List MemoryRecord) : FinalDecision :=
  review (decisionClosed ctx mem) ctx.q ctx.policy (ctx.oracle .risk mem)

/-- Modelled from the spec: the trace a failure-free run produces. -/
def traceClosed (ctx : RunCtx) (mem : List MemoryRecord) : RunTrace :=
  ⟨briefsClosed ctx mem, transcriptClosed ctx mem, decisionClosed ctx mem⟩

/-- A default turn used only as the `getD` fallback in statements. -/
def defaultTurn : DebateTurn :=
  ⟨0, .bull, "", false, none⟩

theorem modelCall_store (ctx : RunCtx) (key : CallKey) (st : RunSt) :
    ((modelCall ctx key st).1).store = st.store := by
  unfold modelCall
  split
  · rfl
  · cases ctx.oracle key st.store with
    | ok t => rfl
    | absorbable e =>
      simp only []
      split <;> rfl
    | hard e => rfl

theorem modelCall_calls_le (ctx : RunCtx) (key : CallKey) (st : RunSt) :
    ((modelCall ctx key st).1).calls ≤ st.calls + 1 := by
  unfold modelCall
  split
  · exact Nat.le_add_right _ _
  · cases ctx.oracle key st.store with
    | ok t => exact Nat.le_refl _
    | absorbable e =>
      simp only []
      split <;> exact Nat.le_refl _
    | hard e => exact Nat.le_refl _

theorem modelCall_none_ok (ctx : RunCtx) (key : CallKey) (st : RunSt)
    (hc : ctx.cancelAt = none)
    (hf : failing ctx.strict (ctx.oracle key st.store) = false) :
    modelCall ctx key st = (⟨st.calls + 1, st.store⟩, .ok (ctx.oracle key st.store)) := by
  unfold modelCall
  rw [hc]
  simp only [reduceCtorEq, if_false]
  cases h : ctx.oracle key st.store with
  | ok t => rfl
  | absorbable e =>
    rw [h] at hf
    simp only [failing] at hf
    simp [hf]
  | hard e =>
    rw [h] at hf
    simp [failing] at hf

theorem modelCall_none_err (ctx : RunCtx) (key : CallKey) (st : RunSt)
    (hc : ctx.cancelAt = none)
    (hf : failing ctx.strict (ctx.oracle key st.store) = true) :
    modelCall ctx key st =
      (⟨st.calls + 1, st.store⟩,
       .error (.roleFailure ⟨roleNameOf key, ctx.q, failKind (ctx.oracle key st.store)⟩)) := by
  unfold modelCall
  rw [hc]
  simp only [reduceCtorEq, if_false]
  cases h : ctx.oracle key st.store with
  | ok t =>
    rw [h] at hf
    simp [failing] at hf
  | absorbable e =>
    rw [h] at hf
    simp only [failing] at hf
    simp [hf, failKind]
  | hard e => rfl

theorem andThen_store {α β : Type} (x : RunSt × Except RunErr α)
    (f : α → RunSt → RunSt × Except RunErr β)
    (hf : ∀ (a : α) (st : RunSt), ((f a st).1).store = st.store) :
    ((andThen x f).1).store = x.1.store := by
  unfold andThen
  cases h : x.2 with
  | error e => rfl
  | ok a => exact hf a x.1

theorem andThen_calls {α β : Type} (x : RunSt × Except RunErr α)
    (f : α → RunSt → RunSt × Except RunErr β) (b : Nat)
    (hf : ∀ (a : α) (st : RunSt), ((f a st).1).calls ≤ st.calls + b) :
    ((andThen x f).1).calls ≤ x.1.calls + b := by
  unfold andThen
  cases h : x.2 with
  | error e => exact Nat.le_add_right _ _
  | ok a => exact hf a x.1

theorem andThen_ok {α β : Type} (x : RunSt × Except RunErr α)
    (f : α → RunSt → RunSt × Except RunErr β) (st1 : RunSt) (a : α)
    (h : x = (st1, .ok a)) : andThen x f = f a st1 := by
  rw [h]; rfl

theorem andThen_err {α β : Type} (x : RunSt × Except RunErr α)
    (f : α → RunSt → RunSt × Except RunErr β) (st1 : RunSt) (e : RunErr)
    (h : x = (st1, .error e)) : andThen x f = (st1, .error e) := by
  rw [h]; rfl

theorem runAnalysts_store (ctx : RunCtx) (roles : List String) :
    ∀ st : RunSt, ((runAnalysts ctx roles st).1).store = st.store := by
  induction roles with
  | nil => intro st; rfl
  | cons r rs ih =>
    intro st
    simp only [runAnalysts]
    refine (andThen_store _ _ ?_).trans (modelCall_store ctx (.analyst r) st)
    intro oc st1
    exact (andThen_store _ _ (fun bs st2 => rfl)).trans (ih st1)

theorem runAnalysts_calls (ctx : RunCtx) (roles : List String) :
    ∀ st : RunSt, ((runAnalysts ctx roles st).1).calls ≤ st.calls + roles.length := by
  induction roles with
  | nil => intro st; exact Nat.le_add_right _ _
  | cons r rs ih =>
    intro st
    simp only [runAnalysts, List.length_cons]
    have houter := andThen_calls (modelCall ctx (.analyst r) st)
      (fun oc st1 => andThen (runAnalysts ctx rs st1) fun bs st2 =>
        (st2, .ok (briefOf ctx.q r oc :: bs))) rs.length ?_
    · have hmc := modelCall_calls_le ctx (.analyst r) st
      omega
    · intro oc st1
      simp only []
      have h1 := andThen_calls (runAnalysts ctx rs st1)
        (fun bs st2 => (st2, .ok (briefOf ctx.q r oc :: bs))) 0
        (fun bs st2 => Nat.le_add_right _ _)
      have h2 := ih st1
      omega

theorem runAnalysts_ok (ctx : RunCtx) (hc : ctx.cancelAt = none) :
    ∀ (roles : List String) (st : RunSt),
    (∀ r ∈ roles, failing ctx.strict (ctx.oracle (.analyst r) st.store) = false) →
    runAnalysts ctx roles st =
      (⟨st.calls + roles.length, st.store⟩,
       .ok (roles.map (analyze ctx.oracle ctx.q st.store))) := by
  intro roles
  induction roles with
  | nil => intro st _; simp [runAnalysts]
  | cons r rs ih =>
    intro st hnf
    have hr : failing ctx.strict (ctx.oracle (.analyst r) st.store) = false :=
      hnf r (List.mem_cons_self r rs)
    simp only [runAnalysts]
    rw [andThen_ok _ _ _ _ (modelCall_none_ok ctx (.analyst r) st hc hr)]
    rw [ih ⟨st.calls + 1, st.store⟩ (fun r' hr' => hnf r' (List.mem_cons_of_mem r hr'))]
    rw [andThen_ok _ _ _ _ rfl]
    simp only [List.map_cons, List.length_cons, analyze, Prod.mk.injEq, RunSt.mk.injEq]
    refine ⟨⟨by omega, ?_⟩, ?_⟩ <;> trivial

theorem runAnalysts_err (ctx : RunCtx) (hc : ctx.cancelAt = none) :
    ∀ (roles : List String) (st : RunSt) (r0 : String),
    roles.find? (fun r => failing ctx.strict (ctx.oracle (.analyst r) st.store)) = some r0 →
    ∃ st', runAnalysts ctx roles st =
      (st', .error (.roleFailure ⟨r0, ctx.q, failKind (ctx.oracle (.analyst r0) st.store)⟩)) := by
  intro roles
  induction roles with
  | nil => intro st r0 hfind; simp at hfind
  | cons r rs ih =>
    intro st r0 hfind
    cases hp : failing ctx.strict (ctx.oracle (.analyst r) st.store) with
    | true =>
      simp only [List.find?, hp] at hfind
      injection hfind with hr0
      subst hr0
      refine ⟨⟨st.calls + 1, st.store⟩, ?_⟩
      simp only [runAnalysts]
      rw [andThen_err _ _ _ _ (modelCall_none_err ctx (.analyst r) st hc hp)]
      rfl
    | false =>
      simp only [List.find?, hp] at hfind
      obtain ⟨st2, heq⟩ := ih ⟨st.calls + 1, st.store⟩ r0 hfind
      refine ⟨st2, ?_⟩
      simp only [runAnalysts]
      rw [andThen_ok _ _ _ _ (modelCall_none_ok ctx (.analyst r) st hc hp)]
      rw [andThen_err _ _ _ _ heq]

theorem debateStep_store (ctx : RunCtx) (s : DebateState) (st : RunSt) :
    ((debateStep ctx s st).1).store = st.store := by
  unfold debateStep
  cases s.phase with
  | AWAITING_OPENING => rfl
  | BULL_TURN =>
    exact (andThen_store _ _ (fun oc st1 => rfl)).trans
      (modelCall_store ctx (.debate .bull s.round) st)
  | BEAR_TURN =>
    exact (andThen_store _ _ (fun oc st1 => rfl)).trans
      (modelCall_store ctx (.debate .bear s.round) st)
  | CONCLUDED => rfl

theorem debateStep_calls (ctx : RunCtx) (s : DebateState) (st : RunSt) :
    ((debateStep ctx s st).1).calls ≤ st.calls + 1 := by
  unfold debateStep
  cases s.phase with
  | AWAITING_OPENING => exact Nat.le_add_right _ _
  | BULL_TURN =>
    dsimp only
    have h1 := andThen_calls (modelCall ctx (.debate .bull s.round) st)
      (fun oc st1 => (st1, .ok (DebateState.mk .BEAR_TURN s.round
        (s.transcript ++ [turnOf .bull s.round s.transcript.length oc])))) 0
      (fun oc st1 => Nat.le_add_right _ _)
    have h2 := modelCall_calls_le ctx (.debate .bull s.round) st
    omega
  | BEAR_TURN =>
    dsimp only
    have h1 := andThen_calls (modelCall ctx (.debate .bear s.round) st)
      (fun oc st1 => (st1, .ok (DebateState.mk
        (if s.round + 1 < ctx.maxDebateRounds then .BULL_TURN else .CONCLUDED)
        (s.round + 1) (s.transcript ++ [turnOf .bear s.round s.transcript.length oc])))) 0
      (fun oc st1 => Nat.le_add_right _ _)
    have h2 := modelCall_calls_le ctx (.debate .bear s.round) st
    omega
  | CONCLUDED => exact Nat.le_add_right _ _

theorem driveDebate_concluded (ctx : RunCtx) :
    ∀ (n : Nat) (s : DebateState) (st : RunSt), s.phase = .CONCLUDED →
    driveDebate ctx n s st = (st, .ok s) := by
  intro n s st h
  cases n with
  | zero => rfl
  | succ n => simp only [driveDebate, h, if_true]

theorem driveDebate_store (ctx : RunCtx) :
    ∀ (n : Nat) (s : DebateState) (st : RunSt),
    ((driveDebate ctx n s st).1).store = st.store := by
  intro n
  induction n with
  | zero => intro s st; rfl
  | succ n ih =>
    intro s st
    simp only [driveDebate]
    split
    · rfl
    · exact (andThen_store _ _ (fun s1 st1 => ih s1 st1)).trans (debateStep_store ctx s st)

theorem driveDebate_calls (ctx : RunCtx) :
    ∀ (n : Nat) (s : DebateState) (st : RunSt),
    ((driveDebate ctx n s st).1).calls ≤ st.calls + n := by
  intro n
  induction n with
  | zero => intro s st; exact Nat.le_refl _
  | succ n ih =>
    intro s st
    simp only [driveDebate]
    split
    · show st.calls ≤ st.calls + (n + 1)
      omega
    · have h1 := andThen_calls (debateStep ctx s st)
        (fun s1 st1 => driveDebate ctx n s1 st1) n (fun s1 st1 => ih s1 st1)
      have h2 := debateStep_calls ctx s st
      omega

theorem debateStep_bull (ctx : RunCtx) (r : Nat) (t : List DebateTurn) (st : RunSt)
    (hc : ctx.cancelAt = none)
    (hf : failing ctx.strict (ctx.oracle (.debate .bull r) st.store) = false) :
    debateStep ctx ⟨.BULL_TURN, r, t⟩ st =
      (⟨st.calls + 1, st.store⟩,
       .ok ⟨.BEAR_TURN, r, t ++ [turnOf .bull r t.length (ctx.oracle (.debate .bull r) st.store)]⟩) := by
  exact andThen_ok (modelCall ctx (.debate .bull r) st)
    (fun oc st1 => (st1, .ok (DebateState.mk .BEAR_TURN r (t ++ [turnOf .bull r t.length oc]))))
    ⟨st.calls + 1, st.store⟩ (ctx.oracle (.debate .bull r) st.store)
    (modelCall_none_ok ctx (.debate .bull r) st hc hf)

theorem debateStep_bull_err (ctx : RunCtx) (r : Nat) (t : List DebateTurn) (st : RunSt)
    (hc : ctx.cancelAt = none)
    (hf : failing ctx.strict (ctx.oracle (.debate .bull r) st.store) = true) :
    debateStep ctx ⟨.BULL_TURN, r, t⟩ st =
      (⟨st.calls + 1, st.store⟩,
       .error (.roleFailure ⟨"bull_researcher", ctx.q,
         failKind (ctx.oracle (.debate .bull r) st.store)⟩)) := by
  exact andThen_err (modelCall ctx (.debate .bull r) st)
    (fun oc st1 => (st1, .ok (DebateState.mk .BEAR_TURN r (t ++ [turnOf .bull r t.length oc]))))
    ⟨st.calls + 1, st.store⟩ _
    (modelCall_none_err ctx (.debate .bull r) st hc hf)

theorem debateStep_bear (ctx : RunCtx) (r : Nat) (t : List DebateTurn) (st : RunSt)
    (hc : ctx.cancelAt = none)
    (hf : failing ctx.strict (ctx.oracle (.debate .bear r) st.store) = false) :
    debateStep ctx ⟨.BEAR_TURN, r, t⟩ st =
      (⟨st.calls + 1, st.store⟩,
       .ok ⟨if r + 1 < ctx.maxDebateRounds then .BULL_TURN else .CONCLUDED, r + 1,
         t ++ [turnOf .bear r t.length (ctx.oracle (.debate .bear r) st.store)]⟩) := by
  exact andThen_ok (modelCall ctx (.debate .bear r) st)
    (fun oc st1 => (st1, .ok (DebateState.mk
      (if r + 1 < ctx.maxDebateRounds then .BULL_TURN else .CONCLUDED)
      (r + 1) (t ++ [turnOf .bear r t.length oc]))))
    ⟨st.calls + 1, st.store⟩ (ctx.oracle (.debate .bear r) st.store)
    (modelCall_none_ok ctx (.debate .bear r) st hc hf)

theorem debateStep_bear_err (ctx : RunCtx) (r : Nat) (t : List DebateTurn) (st : RunSt)
    (hc : ctx.cancelAt = none)
    (hf : failing ctx.strict (ctx.oracle (.debate .bear r) st.store) = true) :
    debateStep ctx ⟨.BEAR_TURN, r, t⟩ st =
      (⟨st.calls + 1, st.store⟩,
       .error (.roleFailure ⟨"bear_researcher", ctx.q,
         failKind (ctx.oracle (.debate .bear r) st.store)⟩)) := by
  exact andThen_err (modelCall ctx (.debate .bear r) st)
    (fun oc st1 => (st1, .ok (DebateState.mk
      (if r + 1 < ctx.maxDebateRounds then .BULL_TURN else .CONCLUDED)
      (r + 1) (t ++ [turnOf .bear r t.length oc]))))
    ⟨st.calls + 1, st.store⟩ _
    (modelCall_none_err ctx (.debate .bear r) st hc hf)

theorem driveDebate_step_eq (ctx : RunCtx) (n : Nat) (s : DebateState) (st : RunSt)
    (h : ¬(s.phase = .CONCLUDED)) :
    driveDebate ctx (n + 1) s st =
      andThen (debateStep ctx s st) fun s1 st1 => driveDebate ctx n s1 st1 := by
  have e : driveDebate ctx (n + 1) s st =
      if s.phase = .CONCLUDED then (st, .ok s)
      else andThen (debateStep ctx s st) fun s1 st1 => driveDebate ctx n s1 st1 := rfl
  rw [e, if_neg h]

theorem debateSeg_cons (ctx : RunCtx) (mem : List MemoryRecord) (r k L : Nat) :
    debateSeg ctx mem r (k + 1) L =
      turnOf .bull r L (ctx.oracle (.debate .bull r) mem)
      :: turnOf .bear r (L + 1) (ctx.oracle (.debate .bear r) mem)
      :: debateSeg ctx mem (r + 1) k (L + 2) := rfl

theorem driveDebate_run (ctx : RunCtx) (hc : ctx.cancelAt = none) :
    ∀ (k : Nat), 1 ≤ k → ∀ (r : Nat) (t : List DebateTurn) (st : RunSt),
    r + k = ctx.maxDebateRounds →
    (∀ (sp : Speaker) (i : Nat), r ≤ i → i < ctx.maxDebateRounds →
      failing ctx.strict (ctx.oracle (.debate sp i) st.store) = false) →
    driveDebate ctx (2 * k) ⟨.BULL_TURN, r, t⟩ st =
      (⟨st.calls + 2 * k, st.store⟩,
       .ok ⟨.CONCLUDED, ctx.maxDebateRounds, t ++ debateSeg ctx st.store r k t.length⟩) := by
  intro k
  induction k with
  | zero => intro h; omega
  | succ k ih =>
    intro _ r t st hr hnf
    have e1 : 2 * (k + 1) = 2 * k + 1 + 1 := by ring
    rw [e1, driveDebate_step_eq ctx (2 * k + 1) _ st (by simp)]
    rw [andThen_ok _ _ _ _
      (debateStep_bull ctx r t st hc (hnf .bull r (Nat.le_refl r) (by omega)))]
    rw [driveDebate_step_eq ctx (2 * k) _ _ (by simp)]
    rw [andThen_ok _ _ _ _
      (debateStep_bear ctx r (t ++ [turnOf .bull r t.length (ctx.oracle (.debate .bull r) st.store)])
        ⟨st.calls + 1, st.store⟩ hc (hnf .bear r (Nat.le_refl r) (by omega)))]
    have hlen1 : (t ++ [turnOf .bull r t.length (ctx.oracle (.debate .bull r) st.store)]).length
        = t.length + 1 := by simp
    rw [hlen1]
    cases k with
    | zero =>
      have hNr : ¬(r + 1 < ctx.maxDebateRounds) := by omega
      rw [if_neg hNr, driveDebate_concluded ctx _ _ _ rfl]
      rw [debateSeg_cons]
      simp only [debateSeg, Prod.mk.injEq, RunSt.mk.injEq, DebateState.mk.injEq,
        Except.ok.injEq, List.append_assoc, List.singleton_append, List.cons_append,
        List.nil_append]
      and_intros
      all_goals try trivial
      all_goals omega
    | succ k2 =>
      have hlt : r + 1 < ctx.maxDebateRounds := by omega
      rw [if_pos hlt]
      rw [ih (by omega) (r + 1) _ ⟨st.calls + 1 + 1, st.store⟩ (by omega)
        (fun sp i h1 h2 => hnf sp i (by omega) h2)]
      have hlen2 :
          ((t ++ [turnOf .bull r t.length (ctx.oracle (.debate .bull r) st.store)]) ++
            [turnOf .bear r (t.length + 1) (ctx.oracle (.debate .bear r) st.store)]).length
          = t.length + 2 := by simp
      rw [hlen2, debateSeg_cons]
      simp only [Prod.mk.injEq, RunSt.mk.injEq, DebateState.mk.injEq, Except.ok.injEq,
        List.append_assoc, List.singleton_append, List.cons_append, List.nil_append]
      and_intros
      all_goals try trivial
      all_goals omega

theorem driveDebate_errk (ctx : RunCtx) (hc : ctx.cancelAt = none) :
    ∀ (k : Nat), 1 ≤ k → ∀ (r : Nat) (t : List DebateTurn) (st : RunSt) (key : CallKey),
    r + k = ctx.maxDebateRounds →
    (debateKeys r k).find? (fun kk => failing ctx.strict (ctx.oracle kk st.store)) = some key →
    ∃ st', driveDebate ctx (2 * k) ⟨.BULL_TURN, r, t⟩ st =
      (st', .error (.roleFailure ⟨roleNameOf key, ctx.q, failKind (ctx.oracle key st.store)⟩)) := by
  intro k
  induction k with
  | zero => intro h; omega
  | succ k ih =>
    intro _ r t st key hr hfind
    have e1 : 2 * (k + 1) = 2 * k + 1 + 1 := by ring
    rw [e1, driveDebate_step_eq ctx (2 * k + 1) _ st (by simp)]
    cases hb : failing ctx.strict (ctx.oracle (.debate .bull r) st.store) with
    | true =>
      simp only [debateKeys, List.find?, hb] at hfind
      injection hfind with hkey
      subst hkey
      rw [andThen_err _ _ _ _ (debateStep_bull_err ctx r t st hc hb)]
      exact ⟨⟨st.calls + 1, st.store⟩, rfl⟩
    | false =>
      simp only [debateKeys, List.find?, hb] at hfind
      rw [andThen_ok _ _ _ _ (debateStep_bull ctx r t st hc hb)]
      rw [driveDebate_step_eq ctx (2 * k) _ _ (by simp)]
      cases hb2 : failing ctx.strict (ctx.oracle (.debate .bear r) st.store) with
      | true =>
        simp only [List.find?, hb2] at hfind
        injection hfind with hkey
        subst hkey
        rw [andThen_err _ _ _ _
          (debateStep_bear_err ctx r _ ⟨st.calls + 1, st.store⟩ hc hb2)]
        exact ⟨⟨st.calls + 1 + 1, st.store⟩, rfl⟩
      | false =>
        simp only [List.find?, hb2] at hfind
        rw [andThen_ok _ _ _ _
          (debateStep_bear ctx r _ ⟨st.calls + 1, st.store⟩ hc hb2)]
        cases k with
        | zero => simp [debateKeys] at hfind
        | succ k2 =>
          have hlt : r + 1 < ctx.maxDebateRounds := by omega
          rw [if_pos hlt]
          obtain ⟨st', heq⟩ := ih (by omega) (r + 1) _ ⟨st.calls + 1 + 1, st.store⟩ key
            (by omega) hfind
          exact ⟨st', heq⟩

theorem runDebate_ok (ctx : RunCtx) (hc : ctx.cancelAt = none) (st : RunSt)
    (hnf : ∀ (sp : Speaker) (i : Nat), i < ctx.maxDebateRounds →
      failing ctx.strict (ctx.oracle (.debate sp i) st.store) = false) :
    runDebate ctx st =
      (⟨st.calls + 2 * ctx.maxDebateRounds, st.store⟩,
       .ok ⟨.CONCLUDED, ctx.maxDebateRounds,
         debateSeg ctx st.store 0 ctx.maxDebateRounds 0⟩) := by
  unfold runDebate
  rw [driveDebate_step_eq ctx (2 * ctx.maxDebateRounds) _ st (by simp)]
  rw [andThen_ok (debateStep ctx ⟨.AWAITING_OPENING, 0, []⟩ st) _ st
    ⟨if ctx.maxDebateRounds = 0 then .CONCLUDED else .BULL_TURN, 0, []⟩ rfl]
  by_cases hN : ctx.maxDebateRounds = 0
  · rw [if_pos hN, driveDebate_concluded ctx _ _ _ rfl]
    rw [hN]
    simp [debateSeg]
  · rw [if_neg hN]
    have := driveDebate_run ctx hc ctx.maxDebateRounds (by omega) 0 [] st (by omega)
      (fun sp i h1 h2 => hnf sp i h2)
    rw [this]
    simp

theorem runDebate_err (ctx : RunCtx) (hc : ctx.cancelAt = none) (st : RunSt) (key : CallKey)
    (hfind : (debateKeys 0 ctx.maxDebateRounds).find?
      (fun kk => failing ctx.strict (ctx.oracle kk st.store)) = some key) :
    ∃ st', runDebate ctx st =
      (st', .error (.roleFailure ⟨roleNameOf key, ctx.q, failKind (ctx.oracle key st.store)⟩)) := by
  unfold runDebate
  rw [driveDebate_step_eq ctx (2 * ctx.maxDebateRounds) _ st (by simp)]
  rw [andThen_ok (debateStep ctx ⟨.AWAITING_OPENING, 0, []⟩ st) _ st
    ⟨if ctx.maxDebateRounds = 0 then .CONCLUDED else .BULL_TURN, 0, []⟩ rfl]
  by_cases hN : ctx.maxDebateRounds = 0
  · rw [hN] at hfind
    simp [debateKeys] at hfind
  · rw [if_neg hN]
    exact driveDebate_errk ctx hc ctx.maxDebateRounds (by omega) 0 [] st key (by omega) hfind

theorem runDebate_store (ctx : RunCtx) (st : RunSt) :
    ((runDebate ctx st).1).store = st.store :=
  driveDebate_store ctx (2 * ctx.maxDebateRounds + 1) ⟨.AWAITING_OPENING, 0, []⟩ st

theorem runDebate_calls (ctx : RunCtx) (st : RunSt) :
    ((runDebate ctx st).1).calls ≤ st.calls + 2 * ctx.maxDebateRounds := by
  unfold runDebate
  rw [driveDebate_step_eq ctx (2 * ctx.maxDebateRounds) _ st (by simp)]
  rw [andThen_ok (debateStep ctx ⟨.AWAITING_OPENING, 0, []⟩ st) _ st
    ⟨if ctx.maxDebateRounds = 0 then .CONCLUDED else .BULL_TURN, 0, []⟩ rfl]
  exact driveDebate_calls ctx (2 * ctx.maxDebateRounds) _ st

theorem runTrader_ok (ctx : RunCtx) (briefs : List AnalystBrief)
    (transcript : List DebateTurn) (st : RunSt) (hc : ctx.cancelAt = none)
    (hf : failing ctx.strict (ctx.oracle .trader st.store) = false) :
    runTrader ctx briefs transcript st =
      (⟨st.calls + 1, st.store⟩,
       .ok (decide ctx.q briefs transcript (ctx.oracle .trader st.store))) :=
  andThen_ok (modelCall ctx .trader st)
    (fun oc st1 => (st1, .ok (decide ctx.q briefs transcript oc)))
    ⟨st.calls + 1, st.store⟩ _ (modelCall_none_ok ctx .trader st hc hf)

theorem runTrader_err (ctx : RunCtx) (briefs : List AnalystBrief)
    (transcript : List DebateTurn) (st : RunSt) (hc : ctx.cancelAt = none)
    (hf : failing ctx.strict (ctx.oracle .trader st.store) = true) :
    runTrader ctx briefs transcript st =
      (⟨st.calls + 1, st.store⟩,
       .error (.roleFailure ⟨"trader", ctx.q, failKind (ctx.oracle .trader st.store)⟩)) :=
  andThen_err (modelCall ctx .trader st)
    (fun oc st1 => (st1, .ok (decide ctx.q briefs transcript oc)))
    ⟨st.calls + 1, st.store⟩ _ (modelCall_none_err ctx .trader st hc hf)

theorem runRisk_ok (ctx : RunCtx) (d : Decision) (st : RunSt) (hc : ctx.cancelAt = none)
    (hf : failing ctx.strict (ctx.oracle .risk st.store) = false) :
    runRisk ctx d st =
      (⟨st.calls + 1, st.store⟩,
       .ok (review d ctx.q ctx.policy (ctx.oracle .risk st.store))) :=
  andThen_ok (modelCall ctx .risk st)
    (fun oc st1 => (st1, .ok (review d ctx.q ctx.policy oc)))
    ⟨st.calls + 1, st.store⟩ _ (modelCall_none_ok ctx .risk st hc hf)

theorem runRisk_err (ctx : RunCtx) (d : Decision) (st : RunSt) (hc : ctx.cancelAt = none)
    (hf : failing ctx.strict (ctx.oracle .risk st.store) = true) :
    runRisk ctx d st =
      (⟨st.calls + 1, st.store⟩,
       .error (.roleFailure ⟨"risk_manager", ctx.q, failKind (ctx.oracle .risk st.store)⟩)) :=
  andThen_err (modelCall ctx .risk st)
    (fun oc st1 => (st1, .ok (review d ctx.q ctx.policy oc)))
    ⟨st.calls + 1, st.store⟩ _ (modelCall_none_err ctx .risk st hc hf)

theorem runTrader_store (ctx : RunCtx) (briefs : List AnalystBrief)
    (transcript : List DebateTurn) (st : RunSt) :
    ((runTrader ctx briefs transcript st).1).store = st.store :=
  (andThen_store _ _ (fun oc st1 => rfl)).trans (modelCall_store ctx .trader st)

theorem runRisk_store (ctx : RunCtx) (d : Decision) (st : RunSt) :
    ((runRisk ctx d st).1).store = st.store :=
  (andThen_store _ _ (fun oc st1 => rfl)).trans (modelCall_store ctx .risk st)

theorem runTrader_calls (ctx : RunCtx) (briefs : List AnalystBrief)
    (transcript : List DebateTurn) (st : RunSt) :
    ((runTrader ctx briefs transcript st).1).calls ≤ st.calls + 1 := by
  have h1 := andThen_calls (modelCall ctx .trader st)
    (fun oc st1 => (st1, .ok (decide ctx.q briefs transcript oc))) 0
    (fun oc st1 => Nat.le_add_right _ _)
  have h2 := modelCall_calls_le ctx .trader st
  unfold runTrader
  omega

theorem runRisk_calls (ctx : RunCtx) (d : Decision) (st : RunSt) :
    ((runRisk ctx d st).1).calls ≤ st.calls + 1 := by
  have h1 := andThen_calls (modelCall ctx .risk st)
    (fun oc st1 => (st1, .ok (review d ctx.q ctx.policy oc))) 0
    (fun oc st1 => Nat.le_add_right _ _)
  have h2 := modelCall_calls_le ctx .risk st
  unfold runRisk
  omega

theorem runGraph_store (ctx : RunCtx) (st : RunSt) :
    ((runGraph ctx st).1).store = st.store := by
  refine (andThen_store _ _ ?_).trans (runAnalysts_store ctx analystRoles st)
  intro briefs st1
  refine (andThen_store _ _ ?_).trans (runDebate_store ctx st1)
  intro ds st2
  refine (andThen_store _ _ ?_).trans (runTrader_store ctx briefs ds.transcript st2)
  intro dec st3
  refine (andThen_store _ _ ?_).trans (runRisk_store ctx dec st3)
  intro fd st4
  rfl

theorem runGraph_calls (ctx : RunCtx) (st : RunSt) :
    ((runGraph ctx st).1).calls ≤ st.calls + modelCallBound ctx.maxDebateRounds := by
  have hrisk : ∀ (dec : Decision) (briefs : List AnalystBrief)
      (ds : DebateState) (st3 : RunSt),
      ((andThen (runRisk ctx dec st3) fun fd st4 =>
        (st4, .ok (fd, (⟨briefs, ds.transcript, dec⟩ : RunTrace)))).1).calls
        ≤ st3.calls + 1 := by
    intro dec briefs ds st3
    have h1 := andThen_calls (runRisk ctx dec st3)
      (fun fd st4 => (st4, .ok (fd, (⟨briefs, ds.transcript, dec⟩ : RunTrace)))) 0
      (fun fd st4 => Nat.le_add_right _ _)
    have h2 := runRisk_calls ctx dec st3
    omega
  have htr : ∀ (briefs : List AnalystBrief) (ds : DebateState) (st2 : RunSt),
      ((andThen (runTrader ctx briefs ds.transcript st2) fun dec st3 =>
        andThen (runRisk ctx dec st3) fun fd st4 =>
          (st4, .ok (fd, (⟨briefs, ds.transcript, dec⟩ : RunTrace)))).1).calls
        ≤ st2.calls + 2 := by
    intro briefs ds st2
    have h1 := andThen_calls (runTrader ctx briefs ds.transcript st2)
      (fun dec st3 => andThen (runRisk ctx dec st3) fun fd st4 =>
        (st4, .ok (fd, (⟨briefs, ds.transcript, dec⟩ : RunTrace)))) 1
      (fun dec st3 => hrisk dec briefs ds st3)
    have h2 := runTrader_calls ctx briefs ds.transcript st2
    omega
  have hdeb : ∀ (briefs : List AnalystBrief) (st1 : RunSt),
      ((andThen (runDebate ctx st1) fun ds st2 =>
        andThen (runTrader ctx briefs ds.transcript st2) fun dec st3 =>
          andThen (runRisk ctx dec st3) fun fd st4 =>
            (st4, .ok (fd, (⟨briefs, ds.transcript, dec⟩ : RunTrace)))).1).calls
        ≤ st1.calls + (2 * ctx.maxDebateRounds + 2) := by
    intro briefs st1
    have h1 := andThen_calls (runDebate ctx st1)
      (fun ds st2 => andThen (runTrader ctx briefs ds.transcript st2) fun dec st3 =>
        andThen (runRisk ctx dec st3) fun fd st4 =>
          (st4, .ok (fd, (⟨briefs, ds.transcript, dec⟩ : RunTrace)))) 2
      (fun ds st2 => htr briefs ds st2)
    have h2 := runDebate_calls ctx st1
    omega
  have h1 := andThen_calls (runAnalysts ctx analystRoles st)
    (fun briefs st1 => andThen (runDebate ctx st1) fun ds st2 =>
      andThen (runTrader ctx briefs ds.transcript st2) fun dec st3 =>
        andThen (runRisk ctx dec st3) fun fd st4 =>
          (st4, .ok (fd, (⟨briefs, ds.transcript, dec⟩ : RunTrace))))
    (2 * ctx.maxDebateRounds + 2) (fun briefs st1 => hdeb briefs st1)
  have h2 := runAnalysts_calls ctx analystRoles st
  unfold runGraph modelCallBound
  omega

theorem mem_debateKeys (sp : Speaker) :
    ∀ (k r i : Nat), r ≤ i → i < r + k → CallKey.debate sp i ∈ debateKeys r k := by
  intro k
  induction k with
  | zero => intro r i h1 h2; omega
  | succ k ih =>
    intro r i h1 h2
    by_cases hi : i = r
    · subst hi
      cases sp with
      | bull => exact List.mem_cons_self _ _
      | bear => exact List.mem_cons_of_mem _ (List.mem_cons_self _ _)
    · exact List.mem_cons_of_mem _ (List.mem_cons_of_mem _ (ih (r + 1) i (by omega) (by omega)))

theorem mem_callSchedule_analyst (n : Nat) (r : String) (h : r ∈ analystRoles) :
    CallKey.analyst r ∈ callSchedule n :=
  List.mem_append_left _ (List.mem_append_left _ (List.mem_map_of_mem _ h))

theorem mem_callSchedule_debate (n : Nat) (sp : Speaker) (i : Nat) (h : i < n) :
    CallKey.debate sp i ∈ callSchedule n :=
  List.mem_append_left _
    (List.mem_append_right _ (mem_debateKeys sp n 0 i (Nat.zero_le i) (by omega)))

theorem mem_callSchedule_trader (n : Nat) : CallKey.trader ∈ callSchedule n :=
  List.mem_append_right _ (by simp)

theorem mem_callSchedule_risk (n : Nat) : CallKey.risk ∈ callSchedule n :=
  List.mem_append_right _ (by simp)

theorem debateKeys_length : ∀ (k r : Nat), (debateKeys r k).length = 2 * k := by
  intro k
  induction k with
  | zero => intro r; rfl
  | succ k ih =>
    intro r
    simp only [debateKeys, List.length_cons, ih (r + 1)]
    omega

theorem callSchedule_length (n : Nat) :
    (callSchedule n).length = modelCallBound n := by
  simp [callSchedule, modelCallBound, debateKeys_length]
  omega

theorem runGraph_ok (ctx : RunCtx) (st : RunSt) (hc : ctx.cancelAt = none)
    (hnf : ∀ k ∈ callSchedule ctx.maxDebateRounds,
      failing ctx.strict (ctx.oracle k st.store) = false) :
    runGraph ctx st =
      (⟨st.calls + modelCallBound ctx.maxDebateRounds, st.store⟩,
       .ok (finalClosed ctx st.store, traceClosed ctx st.store)) := by
  unfold runGraph
  rw [andThen_ok _ _ _ _ (runAnalysts_ok ctx hc analystRoles st
    (fun r hr => hnf _ (mem_callSchedule_analyst _ r hr)))]
  rw [andThen_ok _ _ _ _ (runDebate_ok ctx hc ⟨st.calls + analystRoles.length, st.store⟩
    (fun sp i hi => hnf _ (mem_callSchedule_debate _ sp i hi)))]
  dsimp only
  rw [andThen_ok _ _ _ _ (runTrader_ok ctx
    (List.map (analyze ctx.oracle ctx.q st.store) analystRoles)
    (debateSeg ctx st.store 0 ctx.maxDebateRounds 0)
    ⟨st.calls + analystRoles.length + 2 * ctx.maxDebateRounds, st.store⟩ hc
    (hnf _ (mem_callSchedule_trader _)))]
  rw [andThen_ok _ _ _ _ (runRisk_ok ctx
    (decide ctx.q (List.map (analyze ctx.oracle ctx.q st.store) analystRoles)
      (debateSeg ctx st.store 0 ctx.maxDebateRounds 0)
      (ctx.oracle .trader st.store))
    ⟨st.calls + analystRoles.length + 2 * ctx.maxDebateRounds + 1, st.store⟩ hc
    (hnf _ (mem_callSchedule_risk _)))]
  simp only [finalClosed, traceClosed, decisionClosed, briefsClosed, transcriptClosed,
    modelCallBound, Prod.mk.injEq, RunSt.mk.injEq, Except.ok.injEq]
  and_intros
  all_goals try trivial
  all_goals omega

theorem runGraph_err (ctx : RunCtx) (st : RunSt) (hc : ctx.cancelAt = none) (key : CallKey)
    (hfind : (callSchedule ctx.maxDebateRounds).find?
      (fun k => failing ctx.strict (ctx.oracle k st.store)) = some key) :
    (runGraph ctx st).2 =
      .error (.roleFailure ⟨roleNameOf key, ctx.q, failKind (ctx.oracle key st.store)⟩) := by
  unfold callSchedule at hfind
  rw [List.find?_append, List.find?_append] at hfind
  cases hA : (analystRoles.map CallKey.analyst).find?
      (fun k => failing ctx.strict (ctx.oracle k st.store)) with
  | some a =>
    rw [hA] at hfind
    simp only [Option.or] at hfind
    injection hfind with hkey
    subst hkey
    rw [List.find?_map] at hA
    cases hA2 : analystRoles.find?
        ((fun k => failing ctx.strict (ctx.oracle k st.store)) ∘ CallKey.analyst) with
    | none => rw [hA2] at hA; simp at hA
    | some r0 =>
      rw [hA2] at hA
      simp only [Option.map] at hA
      injection hA with hkey2
      subst hkey2
      obtain ⟨st', heq⟩ := runAnalysts_err ctx hc analystRoles st r0 hA2
      unfold runGraph
      rw [andThen_err _ _ _ _ heq]
      rfl
  | none =>
    have hAll : ∀ r ∈ analystRoles,
        failing ctx.strict (ctx.oracle (.analyst r) st.store) = false := by
      intro r hr
      have := List.find?_eq_none.mp hA (CallKey.analyst r) (List.mem_map_of_mem _ hr)
      simpa using this
    rw [hA] at hfind
    simp only [Option.or] at hfind
    unfold runGraph
    rw [andThen_ok _ _ _ _ (runAnalysts_ok ctx hc analystRoles st hAll)]
    cases hB : (debateKeys 0 ctx.maxDebateRounds).find?
        (fun k => failing ctx.strict (ctx.oracle k st.store)) with
    | some b =>
      rw [hB] at hfind
      simp only [Option.or] at hfind
      injection hfind with hkey
      subst hkey
      obtain ⟨st', heq⟩ := runDebate_err ctx hc ⟨st.calls + analystRoles.length, st.store⟩
        b hB
      rw [andThen_err _ _ _ _ heq]
    | none =>
      have hDeb : ∀ (sp : Speaker) (i : Nat), i < ctx.maxDebateRounds →
          failing ctx.strict (ctx.oracle (.debate sp i) st.store) = false := by
        intro sp i hi
        have := List.find?_eq_none.mp hB (CallKey.debate sp i)
          (mem_debateKeys sp ctx.maxDebateRounds 0 i (Nat.zero_le i) (by omega))
        simpa using this
      rw [hB] at hfind
      simp only [Option.or] at hfind
      rw [andThen_ok _ _ _ _ (runDebate_ok ctx hc ⟨st.calls + analystRoles.length, st.store⟩
        hDeb)]
      dsimp only
      cases hT : failing ctx.strict (ctx.oracle .trader st.store) with
      | true =>
        simp only [List.find?, hT] at hfind
        injection hfind with hkey
        subst hkey
        rw [andThen_err _ _ _ _ (runTrader_err ctx
          (List.map (analyze ctx.oracle ctx.q st.store) analystRoles)
          (debateSeg ctx st.store 0 ctx.maxDebateRounds 0)
          ⟨st.calls + analystRoles.length + 2 * ctx.maxDebateRounds, st.store⟩ hc hT)]
        rfl
      | false =>
        simp only [List.find?, hT] at hfind
        cases hR : failing ctx.strict (ctx.oracle .risk st.store) with
        | true =>
          simp only [List.find?, hR] at hfind
          injection hfind with hkey
          subst hkey
          rw [andThen_ok _ _ _ _ (runTrader_ok ctx
            (List.map (analyze ctx.oracle ctx.q st.store) analystRoles)
            (debateSeg ctx st.store 0 ctx.maxDebateRounds 0)
            ⟨st.calls + analystRoles.length + 2 * ctx.maxDebateRounds, st.store⟩ hc hT)]
          rw [andThen_err _ _ _ _ (runRisk_err ctx
            (decide ctx.q (List.map (analyze ctx.oracle ctx.q st.store) analystRoles)
              (debateSeg ctx st.store 0 ctx.maxDebateRounds 0)
              (ctx.oracle .trader st.store))
            ⟨st.calls + analystRoles.length + 2 * ctx.maxDebateRounds + 1, st.store⟩ hc hR)]
          rfl
        | false =>
          simp only [List.find?, hR] at hfind
          exact Option.noConfusion hfind

theorem andThen_eq_of_snd_err {α β : Type} (x : RunSt × Except RunErr α)
    (f : α → RunSt → RunSt × Except RunErr β) (e : RunErr) (h : x.2 = .error e) :
    andThen x f = (x.1, .error e) := by
  unfold andThen
  rw [h]

theorem andThen_eq_of_snd_ok {α β : Type} (x : RunSt × Except RunErr α)
    (f : α → RunSt → RunSt × Except RunErr β) (a : α) (h : x.2 = .ok a) :
    andThen x f = f a x.1 := by
  unfold andThen
  rw [h]

theorem andThen_congr {α β : Type} (x : RunSt × Except RunErr α)
    (f g : α → RunSt → RunSt × Except RunErr β)
    (h : ∀ a : α, f a x.1 = g a x.1) : andThen x f = andThen x g := by
  unfold andThen
  cases hx : x.2 with
  | error e => rfl
  | ok a => exact h a

theorem modelCall_congr (ctx : RunCtx) (o₂ : Oracle) (key : CallKey) (st : RunSt)
    (h : ctx.oracle key st.store = o₂ key st.store) :
    modelCall ctx key st = modelCall { ctx with oracle := o₂ } key st := by
  unfold modelCall
  dsimp only
  rw [h]

theorem runAnalysts_congr (ctx : RunCtx) (o₂ : Oracle) :
    ∀ (roles : List String) (st : RunSt),
    (∀ r ∈ roles, ctx.oracle (.analyst r) st.store = o₂ (.analyst r) st.store) →
    runAnalysts ctx roles st = runAnalysts { ctx with oracle := o₂ } roles st := by
  intro roles
  induction roles with
  | nil => intro st _; rfl
  | cons r rs ih =>
    intro st h
    show andThen (modelCall ctx (.analyst r) st) _ =
      andThen (modelCall { ctx with oracle := o₂ } (.analyst r) st) _
    rw [← modelCall_congr ctx o₂ (.analyst r) st (h r (List.mem_cons_self r rs))]
    apply andThen_congr
    intro oc
    have hst : ((modelCall ctx (.analyst r) st).1).store = st.store :=
      modelCall_store ctx (.analyst r) st
    rw [ih (modelCall ctx (.analyst r) st).1
      (fun r' hr' => by rw [hst]; exact h r' (List.mem_cons_of_mem r hr'))]

/-- Modelled from the spec: the reachability invariant of the debate
machine: from the initial state, the machine only ever consults debate
rounds below the round bound. -/
def DebateInv (n : Nat) (s : DebateState) : Prop :=
  (s.phase = .AWAITING_OPENING → s.round = 0) ∧
  ((s.phase = .BULL_TURN ∨ s.phase = .BEAR_TURN) → s.round < n)

theorem debateStep_congr (ctx : RunCtx) (o₂ : Oracle) (s : DebateState) (st : RunSt)
    (mem : List MemoryRecord) (hmem : st.store = mem)
    (hinv : DebateInv ctx.maxDebateRounds s)
    (h : ∀ (sp : Speaker) (i : Nat), i < ctx.maxDebateRounds →
      ctx.oracle (.debate sp i) mem = o₂ (.debate sp i) mem) :
    debateStep ctx s st = debateStep { ctx with oracle := o₂ } s st := by
  unfold debateStep
  cases hph : s.phase with
  | AWAITING_OPENING => rfl
  | BULL_TURN =>
    rw [← modelCall_congr ctx o₂ (.debate .bull s.round) st
      (by rw [hmem]; exact h .bull s.round (hinv.2 (Or.inl hph)))]
  | BEAR_TURN =>
    rw [← modelCall_congr ctx o₂ (.debate .bear s.round) st
      (by rw [hmem]; exact h .bear s.round (hinv.2 (Or.inr hph)))]
  | CONCLUDED => rfl

theorem debateStep_inv (ctx : RunCtx) (s s1 : DebateState) (st : RunSt)
    (hinv : DebateInv ctx.maxDebateRounds s)
    (hstep : (debateStep ctx s st).2 = .ok s1) :
    DebateInv ctx.maxDebateRounds s1 := by
  unfold debateStep at hstep
  cases hph : s.phase with
  | AWAITING_OPENING =>
    rw [hph] at hstep
    injection hstep with hs1
    subst hs1
    constructor
    · intro hph1
      by_cases hN : ctx.maxDebateRounds = 0 <;> simp [hN] at hph1
    · intro hph1
      have h0 := hinv.1 hph
      by_cases hN : ctx.maxDebateRounds = 0
      · simp [hN] at hph1
      · simp [h0]; omega
  | BULL_TURN =>
    rw [hph] at hstep
    have hr := hinv.2 (Or.inl hph)
    cases hmc : (modelCall ctx (.debate .bull s.round) st).2 with
    | error e =>
      rw [andThen_eq_of_snd_err _ _ _ hmc] at hstep
      exact absurd hstep (by simp)
    | ok oc =>
      rw [andThen_eq_of_snd_ok _ _ _ hmc] at hstep
      injection hstep with hs1
      subst hs1
      exact ⟨by intro hh; exact absurd hh (by simp), fun _ => hr⟩
  | BEAR_TURN =>
    rw [hph] at hstep
    have hr := hinv.2 (Or.inr hph)
    cases hmc : (modelCall ctx (.debate .bear s.round) st).2 with
    | error e =>
      rw [andThen_eq_of_snd_err _ _ _ hmc] at hstep
      exact absurd hstep (by simp)
    | ok oc =>
      rw [andThen_eq_of_snd_ok _ _ _ hmc] at hstep
      injection hstep with hs1
      subst hs1
      constructor
      · intro hh
        by_cases hlt : s.round + 1 < ctx.maxDebateRounds <;> simp [hlt] at hh
      · intro hh
        by_cases hlt : s.round + 1 < ctx.maxDebateRounds
        · exact hlt
        · simp [hlt] at hh
  | CONCLUDED =>
    rw [hph] at hstep
    injection hstep with hs1
    subst hs1
    exact hinv

theorem driveDebate_congr (ctx : RunCtx) (o₂ : Oracle) (mem : List MemoryRecord)
    (h : ∀ (sp : Speaker) (i : Nat), i < ctx.maxDebateRounds →
      ctx.oracle (.debate sp i) mem = o₂ (.debate sp i) mem) :
    ∀ (n : Nat) (s : DebateState) (st : RunSt), st.store = mem →
    DebateInv ctx.maxDebateRounds s →
    driveDebate ctx n s st = driveDebate { ctx with oracle := o₂ } n s st := by
  intro n
  induction n with
  | zero => intro s st _ _; rfl
  | succ n ih =>
    intro s st hmem hinv
    by_cases hph : s.phase = .CONCLUDED
    · rw [driveDebate_concluded ctx _ _ _ hph,
        driveDebate_concluded { ctx with oracle := o₂ } _ _ _ hph]
    · rw [driveDebate_step_eq ctx n s st hph,
        driveDebate_step_eq { ctx with oracle := o₂ } n s st hph]
      rw [← debateStep_congr ctx o₂ s st mem hmem hinv h]
      cases hstep : (debateStep ctx s st).2 with
      | error e =>
        rw [andThen_eq_of_snd_err _ _ _ hstep, andThen_eq_of_snd_err _ _ _ hstep]
      | ok s1 =>
        rw [andThen_eq_of_snd_ok _ _ _ hstep, andThen_eq_of_snd_ok _ _ _ hstep]
        exact ih s1 (debateStep ctx s st).1
          ((debateStep_store ctx s st).trans hmem)
          (debateStep_inv ctx s s1 st hinv hstep)

theorem runDebate_congr (ctx : RunCtx) (o₂ : Oracle) (st : RunSt)
    (h : ∀ (sp : Speaker) (i : Nat), i < ctx.maxDebateRounds →
      ctx.oracle (.debate sp i) st.store = o₂ (.debate sp i) st.store) :
    runDebate ctx st = runDebate { ctx with oracle := o₂ } st :=
  driveDebate_congr ctx o₂ st.store h (2 * ctx.maxDebateRounds + 1)
    ⟨.AWAITING_OPENING, 0, []⟩ st rfl ⟨fun _ => rfl, by simp⟩

theorem runTrader_congr (ctx : RunCtx) (o₂ : Oracle) (briefs : List AnalystBrief)
    (transcript : List DebateTurn) (st : RunSt)
    (h : ctx.oracle .trader st.store = o₂ .trader st.store) :
    runTrader ctx briefs transcript st =
      runTrader { ctx with oracle := o₂ } briefs transcript st := by
  unfold runTrader
  rw [← modelCall_congr ctx o₂ .trader st h]

theorem runRisk_congr (ctx : RunCtx) (o₂ : Oracle) (d : Decision) (st : RunSt)
    (h : ctx.oracle .risk st.store = o₂ .risk st.store) :
    runRisk ctx d st = runRisk { ctx with oracle := o₂ } d st := by
  unfold runRisk
  rw [← modelCall_congr ctx o₂ .risk st h]

theorem runGraph_congr (ctx : RunCtx) (o₂ : Oracle) (st : RunSt)
    (h : ∀ k ∈ callSchedule ctx.maxDebateRounds,
      ctx.oracle k st.store = o₂ k st.store) :
    runGraph ctx st = runGraph { ctx with oracle := o₂ } st := by
  unfold runGraph
  rw [runAnalysts_congr ctx o₂ analystRoles st
    (fun r hr => h _ (mem_callSchedule_analyst _ r hr))]
  apply andThen_congr
  intro briefs
  have hst1 : ((runAnalysts { ctx with oracle := o₂ } analystRoles st).1).store = st.store :=
    runAnalysts_store _ analystRoles st
  rw [runDebate_congr ctx o₂ _
    (fun sp i hi => by rw [hst1]; exact h _ (mem_callSchedule_debate _ sp i hi))]
  apply andThen_congr
  intro ds
  have hst2 : ((runDebate { ctx with oracle := o₂ }
      (runAnalysts { ctx with oracle := o₂ } analystRoles st).1).1).store = st.store :=
    (runDebate_store _ _).trans hst1
  rw [runTrader_congr ctx o₂ briefs ds.transcript _
    (by rw [hst2]; exact h _ (mem_callSchedule_trader _))]
  apply andThen_congr
  intro dec
  have hst3 : ((runTrader { ctx with oracle := o₂ } briefs ds.transcript
      (runDebate { ctx with oracle := o₂ }
        (runAnalysts { ctx with oracle := o₂ } analystRoles st).1).1).1).store = st.store :=
    (runTrader_store _ _ _ _).trans hst2
  rw [runRisk_congr ctx o₂ dec _
    (by rw [hst3]; exact h _ (mem_callSchedule_risk _))]

/-- Modelled from the spec: Boolean test for a bull turn. -/
def isBullTurn (t : DebateTurn) : Bool :=
  Decidable.decide (t.speaker = Speaker.bull)

/-- Modelled from the spec: Boolean test for a bear turn. -/
def isBearTurn (t : DebateTurn) : Bool :=
  Decidable.decide (t.speaker = Speaker.bear)

theorem turnOf_speaker (sp : Speaker) (r L : Nat) (oc : RoleOutcome) :
    (turnOf sp r L oc).speaker = sp := by
  cases oc <;> rfl

theorem failing_false (oc : RoleOutcome) : failing false oc = isHard oc := by
  cases oc <;> rfl

theorem debateSeg_length (ctx : RunCtx) (mem : List MemoryRecord) :
    ∀ (k r L : Nat), (debateSeg ctx mem r k L).length = 2 * k := by
  intro k
  induction k with
  | zero => intro r L; rfl
  | succ k ih =>
    intro r L
    rw [debateSeg_cons]
    simp only [List.length_cons, ih (r + 1) (L + 2)]
    omega

theorem debateSeg_speaker (ctx : RunCtx) (mem : List MemoryRecord) :
    ∀ (k r L i : Nat), i < 2 * k →
    ((debateSeg ctx mem r k L).getD i defaultTurn).speaker =
      (if i % 2 = 0 then Speaker.bull else Speaker.bear) := by
  intro k
  induction k with
  | zero => intro r L i h; omega
  | succ k ih =>
    intro r L i h
    rw [debateSeg_cons]
    cases i with
    | zero => simp [turnOf_speaker]
    | succ i1 =>
      cases i1 with
      | zero => simp [turnOf_speaker]
      | succ j =>
        have hg : ((turnOf .bull r L (ctx.oracle (.debate .bull r) mem)
            :: turnOf .bear r (L + 1) (ctx.oracle (.debate .bear r) mem)
            :: debateSeg ctx mem (r + 1) k (L + 2)).getD (j + 1 + 1) defaultTurn)
            = (debateSeg ctx mem (r + 1) k (L + 2)).getD j defaultTurn := by
          simp [List.getD]
        rw [hg, ih (r + 1) (L + 2) j (by omega)]
        have hm : (j + 1 + 1) % 2 = j % 2 := by omega
        rw [hm]

theorem debateSeg_count_bull (ctx : RunCtx) (mem : List MemoryRecord) :
    ∀ (k r L : Nat), (debateSeg ctx mem r k L).countP isBullTurn = k := by
  intro k
  induction k with
  | zero => intro r L; rfl
  | succ k ih =>
    intro r L
    rw [debateSeg_cons]
    simp [List.countP_cons, isBullTurn, turnOf_speaker, ih (r + 1) (L + 2)]

theorem debateSeg_count_bear (ctx : RunCtx) (mem : List MemoryRecord) :
    ∀ (k r L : Nat), (debateSeg ctx mem r k L).countP isBearTurn = k := by
  intro k
  induction k with
  | zero => intro r L; rfl
  | succ k ih =>
    intro r L
    rw [debateSeg_cons]
    simp [List.countP_cons, isBearTurn, turnOf_speaker, ih (r + 1) (L + 2)]

/-- A fixed backend oracle for concrete witnesses: every role call
succeeds with a fixed text. -/
def oracleOk : Oracle := fun _ _ => .ok "TEXT"

/-- A backend oracle that hard-fails every debate call beyond round 0;
used to witness that a run never consults call slots outside its
schedule. -/
def oracleCut : Oracle := fun k _ =>
  match k with
  | .debate _ i => if i < 1 then .ok "TEXT" else .hard .backendUnavailable
  | _ => .ok "TEXT"

/-- A concrete non-strict run context with one debate round. -/
def ctxOne : RunCtx :=
  ⟨false, 1, oracleOk, ⟨"AAPL", "2025-08-18"⟩, ⟨true⟩, none⟩

/-- A concrete non-strict run context with zero debate rounds. -/
def ctxZero : RunCtx :=
  ⟨false, 0, oracleOk, ⟨"AAPL", "2025-08-18"⟩, ⟨true⟩, none⟩

/-- A concrete initial run state with an empty memory store. -/
def st0 : RunSt := ⟨0, []⟩

/-- A concrete constructed graph matching the entry script's
configuration. -/
def graphOne : TradingAgentsGraph := ⟨"llamacpp", 1, false, true⟩

/-- C1: for a well-formed query, a non-strict run in which every failure
is absorbable (no hard failures on the call schedule) returns exactly one
FinalDecision — the propagate result is an `ok` pair carrying one
FinalDecision, never absent or partial; and in strict mode the first
failing call on the schedule propagates as a RoleFailure identifying the
failing role, the query, and the underlying error kind. -/
theorem c1_run_total_nonstrict_and_strict_first_failure
    (g : TradingAgentsGraph) (oracle : Oracle) (policy : RiskPolicy)
    (symbol as_of_date : String) (st : RunSt) (ctx : RunCtx)
    (hc : ctx.cancelAt = none) :
    (g.strict = false →
      (∀ k ∈ callSchedule g.maxDebateRounds, isHard (oracle k st.store) = false) →
      ∃ tr fd, (propagate g oracle policy none symbol as_of_date st).2 = .ok (tr, fd))
  ∧ (ctx.strict = true → ∀ key : CallKey,
      (callSchedule ctx.maxDebateRounds).find?
        (fun k => failing ctx.strict (ctx.oracle k st.store)) = some key →
      (runGraph ctx st).2 =
        .error (.roleFailure ⟨roleNameOf key, ctx.q, failKind (ctx.oracle key st.store)⟩)) := by
  constructor
  · intro hs hnf
    have h' : ∀ k ∈ callSchedule
        (⟨g.strict, g.maxDebateRounds, oracle, ⟨symbol, as_of_date⟩, policy,
          none⟩ : RunCtx).maxDebateRounds,
        failing (⟨g.strict, g.maxDebateRounds, oracle, ⟨symbol, as_of_date⟩, policy,
          none⟩ : RunCtx).strict
          ((⟨g.strict, g.maxDebateRounds, oracle, ⟨symbol, as_of_date⟩, policy,
            none⟩ : RunCtx).oracle k st.store) = false := by
      intro k hk
      dsimp only
      rw [hs, failing_false]
      exact hnf k hk
    unfold propagate
    rw [andThen_ok _ _ _ _ (runGraph_ok
      ⟨g.strict, g.maxDebateRounds, oracle, ⟨symbol, as_of_date⟩, policy, none⟩ st rfl h')]
    exact ⟨_, _, rfl⟩
  · intro _ key hfind
    exact runGraph_err ctx st hc key hfind

/-- Witness for C1 at a concrete graph, oracle, query and state. -/
theorem c1_witness :
    ∃ tr fd, (propagate graphOne oracleOk ⟨true⟩ none "AAPL" "2025-08-18" st0).2 =
      .ok (tr, fd) :=
  (c1_run_total_nonstrict_and_strict_first_failure graphOne oracleOk ⟨true⟩
    "AAPL" "2025-08-18" st0 ctxOne rfl).1 rfl (by decide)

/-- C2: with `max_debate_rounds = N` and no hard debate failure, running
the Researcher Debate Pair concludes with a transcript of exactly `2N`
turns, `N` bull and `N` bear, strictly alternating beginning with a bull
turn (even positions bull, odd positions bear). -/
theorem c2_debate_transcript_shape (ctx : RunCtx) (st : RunSt)
    (hc : ctx.cancelAt = none)
    (hnf : ∀ (sp : Speaker) (i : Nat), i < ctx.maxDebateRounds →
      failing ctx.strict (ctx.oracle (.debate sp i) st.store) = false) :
    ∃ s : DebateState, (runDebate ctx st).2 = .ok s ∧ s.phase = .CONCLUDED ∧
      s.transcript.length = 2 * ctx.maxDebateRounds ∧
      s.transcript.countP isBullTurn = ctx.maxDebateRounds ∧
      s.transcript.countP isBearTurn = ctx.maxDebateRounds ∧
      ∀ i : Nat, i < 2 * ctx.maxDebateRounds →
        ((s.transcript.getD i defaultTurn).speaker =
          if i % 2 = 0 then Speaker.bull else Speaker.bear) := by
  refine ⟨⟨.CONCLUDED, ctx.maxDebateRounds,
    debateSeg ctx st.store 0 ctx.maxDebateRounds 0⟩, ?_, rfl, ?_, ?_, ?_, ?_⟩
  · rw [runDebate_ok ctx hc st hnf]
  · exact debateSeg_length ctx st.store ctx.maxDebateRounds 0 0
  · exact debateSeg_count_bull ctx st.store ctx.maxDebateRounds 0 0
  · exact debateSeg_count_bear ctx st.store ctx.maxDebateRounds 0 0
  · exact fun i hi => debateSeg_speaker ctx st.store ctx.maxDebateRounds 0 0 i hi

/-- Witness for C2 at the configured `max_debate_rounds = 1`: the run
produces exactly `2 * 1` debate turns. -/
theorem c2_witness :
    ∃ s : DebateState, (runDebate ctxOne st0).2 = .ok s ∧ s.phase = .CONCLUDED ∧
      s.transcript.length = 2 * ctxOne.maxDebateRounds ∧
      s.transcript.countP isBullTurn = ctxOne.maxDebateRounds ∧
      s.transcript.countP isBearTurn = ctxOne.maxDebateRounds ∧
      ∀ i : Nat, i < 2 * ctxOne.maxDebateRounds →
        ((s.transcript.getD i defaultTurn).speaker =
          if i % 2 = 0 then Speaker.bull else Speaker.bear) :=
  c2_debate_transcript_shape ctxOne st0 rfl (by decide)

/-- C3: with `max_debate_rounds = 0` the debate state machine transitions
directly from AWAITING_OPENING to CONCLUDED with an empty transcript and
no model call, and a non-strict run still succeeds, its trace holding an
empty transcript and exactly one Decision that records "no adversarial
review performed" rather than an error. -/
theorem c3_zero_rounds_degenerate_debate (ctx : RunCtx) (st : RunSt)
    (hc : ctx.cancelAt = none) (hs : ctx.strict = false)
    (hN : ctx.maxDebateRounds = 0)
    (hnf : ∀ k ∈ callSchedule 0, isHard (ctx.oracle k st.store) = false) :
    debateStep ctx ⟨.AWAITING_OPENING, 0, []⟩ st = (st, .ok ⟨.CONCLUDED, 0, []⟩)
  ∧ ∃ fd tr, (runGraph ctx st).2 = .ok (fd, tr) ∧ tr.transcript = []
      ∧ tr.decision.adversarialReviewPerformed = false := by
  constructor
  · have hd : debateStep ctx ⟨.AWAITING_OPENING, 0, []⟩ st =
        (st, Except.ok (⟨if ctx.maxDebateRounds = 0 then .CONCLUDED else .BULL_TURN, 0,
          []⟩ : DebateState)) := rfl
    rw [hd, if_pos hN]
  · have h' : ∀ k ∈ callSchedule ctx.maxDebateRounds,
        failing ctx.strict (ctx.oracle k st.store) = false := by
      intro k hk
      rw [hs, failing_false]
      rw [hN] at hk
      exact hnf k hk
    rw [runGraph_ok ctx st hc h']
    refine ⟨_, _, rfl, ?_, ?_⟩
    · show transcriptClosed ctx st.store = []
      unfold transcriptClosed
      rw [hN]
      rfl
    · show (!(transcriptClosed ctx st.store).isEmpty) = false
      unfold transcriptClosed
      rw [hN]
      rfl

/-- Witness for C3 at a concrete zero-round context. -/
theorem c3_witness :
    debateStep ctxZero ⟨.AWAITING_OPENING, 0, []⟩ st0 = (st0, .ok ⟨.CONCLUDED, 0, []⟩)
  ∧ ∃ fd tr, (runGraph ctxZero st0).2 = .ok (fd, tr) ∧ tr.transcript = []
      ∧ tr.decision.adversarialReviewPerformed = false :=
  c3_zero_rounds_degenerate_debate ctxZero st0 rfl rfl rfl (by decide)

/-- A concrete configuration with `max_debate_rounds = 0` and a valid
provider, as the spec's §4.3 and §8 edge case requires. -/
def zeroRoundsConfig : TAConfig :=
  ⟨"llamacpp", "http://localhost:8080/v1", "models/gemma-3-4b-it-BF16.gguf",
   "models/gemma-3-4b-it-BF16.gguf", 0, true, false⟩

/-- Counterexample for C4 as stated: constructing the graph with the
non-positive `max_debate_rounds = 0` (and a valid provider) succeeds —
it does not fail with a ConfigurationError, since `N = 0` is the
supported edge case of §4.3/§8. -/
theorem c4_counterexample :
    mkTradingAgentsGraph true zeroRoundsConfig = .ok ⟨"llamacpp", 0, false, true⟩ := by
  rfl

/-- C4 (amended): constructing the Orchestration Graph with a negative
`max_debate_rounds`, or with an invalid provider name, fails at
construction time with a ConfigurationError, before any run begins. -/
theorem c4_construction_validation (debug : Bool) (cfg : TAConfig)
    (h : cfg.max_debate_rounds < 0 ∨ cfg.llm_provider ∉ validProviders) :
    ∃ e : ConfigurationError, mkTradingAgentsGraph debug cfg = .error e := by
  unfold mkTradingAgentsGraph
  by_cases hp : cfg.llm_provider ∈ validProviders
  · rw [if_pos hp]
    cases h with
    | inl hneg => rw [if_pos hneg]; exact ⟨_, rfl⟩
    | inr hnp => exact absurd hp hnp
  · rw [if_neg hp]
    exact ⟨_, rfl⟩

/-- Witness for the amended C4 at a concrete negative round count. -/
theorem c4_witness :
    ∃ e : ConfigurationError, mkTradingAgentsGraph true
      ⟨"llamacpp", "http://localhost:8080/v1", "m", "m", -1, true, false⟩ = .error e :=
  c4_construction_validation true _ (Or.inl (by decide))

/-- C5: every run makes at most `modelCallBound max_debate_rounds` model
calls, the bound is a function only of `max_debate_rounds` and the fixed
analyst set, and the run's entire result depends only on the oracle's
values on the static call schedule — so termination never depends on
model behavior. -/
theorem c5_global_call_bound_and_termination :
    (∀ (ctx : RunCtx) (st : RunSt),
      ((runGraph ctx st).1).calls ≤ st.calls + modelCallBound ctx.maxDebateRounds)
  ∧ (∀ n : Nat, modelCallBound n = analystRoles.length + 2 * n + 2)
  ∧ (∀ n : Nat, (callSchedule n).length = modelCallBound n)
  ∧ (∀ (ctx : RunCtx) (o₂ : Oracle) (st : RunSt),
      (∀ k ∈ callSchedule ctx.maxDebateRounds, ctx.oracle k st.store = o₂ k st.store) →
      runGraph ctx st = runGraph { ctx with oracle := o₂ } st) :=
  ⟨runGraph_calls, fun _ => rfl, callSchedule_length, runGraph_congr⟩

/-- Witness for C5: two oracles that agree on the schedule of a one-round
run but diverge beyond it give the same run result. -/
theorem c5_witness :
    runGraph ctxOne st0 = runGraph { ctxOne with oracle := oracleCut } st0 :=
  c5_global_call_bound_and_termination.2.2.2 ctxOne oracleCut st0 (by decide)

/-- C6: the Shared Memory Store is append-only: reflecting twice with two
different realized returns against the same decision id appends two
distinct, independently retrievable MemoryRecords; every pre-existing
record survives, and a single reflection always leaves the old store as a
prefix (no record is overwritten, mutated, or deleted). -/
theorem c6_memory_append_only (store : List MemoryRecord) (id : Nat)
    (r₁ r₂ : Int) (t₁ t₂ : Nat) (h : r₁ ≠ r₂) :
    reflect_and_remember (reflect_and_remember store id r₁ t₁) id r₂ t₂ =
      store ++ [⟨id, r₁, mkLesson id r₁, t₁⟩, ⟨id, r₂, mkLesson id r₂, t₂⟩]
  ∧ (⟨id, r₁, mkLesson id r₁, t₁⟩ : MemoryRecord) ≠ ⟨id, r₂, mkLesson id r₂, t₂⟩
  ∧ (⟨id, r₁, mkLesson id r₁, t₁⟩ : MemoryRecord) ∈
      reflect_and_remember (reflect_and_remember store id r₁ t₁) id r₂ t₂
  ∧ (⟨id, r₂, mkLesson id r₂, t₂⟩ : MemoryRecord) ∈
      reflect_and_remember (reflect_and_remember store id r₁ t₁) id r₂ t₂
  ∧ (∀ m ∈ store, m ∈ reflect_and_remember (reflect_and_remember store id r₁ t₁) id r₂ t₂)
  ∧ (∀ (store' : List MemoryRecord) (id' : Nat) (r' : Int) (t' : Nat),
      store' <+: reflect_and_remember store' id' r' t') := by
  unfold reflect_and_remember
  refine ⟨by simp, ?_, by simp, by simp, ?_, ?_⟩
  · intro hEq
    exact h (congrArg MemoryRecord.realized_return hEq)
  · intro m hm
    simp [hm]
  · intro store' id' r' t'
    exact List.prefix_append store' _

/-- Witness for C6 at concrete returns 1000 and -50. -/
theorem c6_witness :
    reflect_and_remember (reflect_and_remember [] 7 1000 1) 7 (-50) 2 =
      [] ++ [⟨7, 1000, mkLesson 7 1000, 1⟩, ⟨7, -50, mkLesson 7 (-50), 2⟩]
  ∧ (⟨7, 1000, mkLesson 7 1000, 1⟩ : MemoryRecord) ≠ ⟨7, -50, mkLesson 7 (-50), 2⟩
  ∧ (⟨7, 1000, mkLesson 7 1000, 1⟩ : MemoryRecord) ∈
      reflect_and_remember (reflect_and_remember [] 7 1000 1) 7 (-50) 2
  ∧ (⟨7, -50, mkLesson 7 (-50), 2⟩ : MemoryRecord) ∈
      reflect_and_remember (reflect_and_remember [] 7 1000 1) 7 (-50) 2
  ∧ (∀ m ∈ ([] : List MemoryRecord),
      m ∈ reflect_and_remember (reflect_and_remember [] 7 1000 1) 7 (-50) 2)
  ∧ (∀ (store' : List MemoryRecord) (id' : Nat) (r' : Int) (t' : Nat),
      store' <+: reflect_and_remember store' id' r' t') :=
  c6_memory_append_only [] 7 1000 (-50) 1 2 (by decide)

/-- C7: within one run, the analyst stage run on any two permutations of
the same analyst roles (with no failing analyst call) succeeds on both
orders, and the two brief collections are a permutation of each other —
the same set of AnalystBriefs. -/
theorem c7_analyst_order_independence (ctx : RunCtx) (st : RunSt)
    (hc : ctx.cancelAt = none) (order₁ order₂ : List String)
    (hp : order₁.Perm order₂)
    (hnf : ∀ r ∈ order₁, failing ctx.strict (ctx.oracle (.analyst r) st.store) = false) :
    ∃ bs₁ bs₂, (runAnalysts ctx order₁ st).2 = .ok bs₁ ∧
      (runAnalysts ctx order₂ st).2 = .ok bs₂ ∧
      bs₁.Perm bs₂ ∧ ∀ b : AnalystBrief, b ∈ bs₁ ↔ b ∈ bs₂ := by
  have hnf₂ : ∀ r ∈ order₂, failing ctx.strict (ctx.oracle (.analyst r) st.store) = false :=
    fun r hr => hnf r (hp.mem_iff.mpr hr)
  refine ⟨order₁.map (analyze ctx.oracle ctx.q st.store),
    order₂.map (analyze ctx.oracle ctx.q st.store), ?_, ?_, ?_, ?_⟩
  · rw [runAnalysts_ok ctx hc order₁ st hnf]
  · rw [runAnalysts_ok ctx hc order₂ st hnf₂]
  · exact hp.map _
  · exact fun b => (hp.map (analyze ctx.oracle ctx.q st.store)).mem_iff

/-- Witness for C7 at a concrete permutation of the fixed analyst set. -/
theorem c7_witness :
    ∃ bs₁ bs₂,
      (runAnalysts ctxOne ["fundamentals", "technicals", "sentiment", "news"] st0).2 =
        .ok bs₁ ∧
      (runAnalysts ctxOne ["news", "sentiment", "technicals", "fundamentals"] st0).2 =
        .ok bs₂ ∧
      bs₁.Perm bs₂ ∧ ∀ b : AnalystBrief, b ∈ bs₁ ↔ b ∈ bs₂ :=
  c7_analyst_order_independence ctxOne st0 rfl _ _ (by decide) (by decide)

theorem completeRetry_le (backend : Nat → Except ErrorKind String) :
    ∀ (fuel a : Nat), (completeRetry backend a fuel).2 ≤ fuel := by
  intro fuel
  induction fuel with
  | zero => intro a; exact Nat.le_refl _
  | succ fuel ih =>
    intro a
    unfold completeRetry
    cases hb : backend a with
    | ok t => exact Nat.le_add_left _ _
    | error e =>
      cases e with
      | backendUnavailable =>
        have := ih (a + 1)
        dsimp only
        omega
      | backendOverflow => exact Nat.le_add_left _ _
      | backendMalformedOutput => exact Nat.le_add_left _ _
      | toolError => exact Nat.le_add_left _ _

theorem completeRetry_pre (backend : Nat → Except ErrorKind String) :
    ∀ (fuel a j : Nat), j + 1 < (completeRetry backend a fuel).2 →
    backend (a + j) = .error .backendUnavailable := by
  intro fuel
  induction fuel with
  | zero =>
    intro a j h
    simp only [completeRetry] at h
    omega
  | succ fuel ih =>
    intro a j h
    unfold completeRetry at h
    cases hb : backend a with
    | ok t =>
      rw [hb] at h
      dsimp only at h
      omega
    | error e =>
      cases e with
      | backendUnavailable =>
        rw [hb] at h
        dsimp only at h
        cases j with
        | zero => exact hb
        | succ j1 =>
          have hj : j1 + 1 < (completeRetry backend (a + 1) fuel).2 := by omega
          have := ih (a + 1) j1 hj
          rw [show a + (j1 + 1) = a + 1 + j1 from by omega]
          exact this
      | backendOverflow =>
        rw [hb] at h
        dsimp only at h
        omega
      | backendMalformedOutput =>
        rw [hb] at h
        dsimp only at h
        omega
      | toolError =>
        rw [hb] at h
        dsimp only at h
        omega

/-- C8: the Model Client Adapter makes at most the configured maximum
number of attempts; every attempt it retries after was a
BackendUnavailable failure; a first-attempt BackendOverflow is never
retried — the call fails immediately after exactly one attempt — and the
overflow is presented to the triggering role as an absorbable
(truncation/degradation) outcome, not a hard failure; the exponential
backoff delay is bounded by its cap. -/
theorem c8_adapter_retry_policy (backend : Nat → Except ErrorKind String)
    (maxAttempts base cap : Nat) :
    (complete backend maxAttempts).2 ≤ maxAttempts
  ∧ (1 ≤ maxAttempts → backend 0 = .error .backendOverflow →
      complete backend maxAttempts = (.error .backendOverflow, 1))
  ∧ (∀ j : Nat, j + 1 < (complete backend maxAttempts).2 →
      backend j = .error .backendUnavailable)
  ∧ adapterOutcome (.error .backendOverflow) = .absorbable .backendOverflow
  ∧ ∀ a : Nat, backoffDelayMs base cap a ≤ cap := by
  refine ⟨completeRetry_le backend maxAttempts 0, ?_, ?_, rfl,
    fun a => min_le_right _ _⟩
  · intro h1 h0
    obtain ⟨m, rfl⟩ : ∃ m, maxAttempts = m + 1 := ⟨maxAttempts - 1, by omega⟩
    unfold complete completeRetry
    rw [h0]
  · intro j hj
    have := completeRetry_pre backend maxAttempts 0 j hj
    simpa using this

/-- Witness for C8: a backend that always overflows fails after exactly
one of three allowed attempts. -/
theorem c8_witness :
    complete (fun _ => Except.error ErrorKind.backendOverflow) 3 =
      (.error .backendOverflow, 1) :=
  (c8_adapter_retry_policy (fun _ => Except.error ErrorKind.backendOverflow)
    3 1 100).2.1 (by decide) rfl

/-- C9: no execution of run/propagate writes to the Shared Memory Store —
for every graph, oracle, policy, cancellation point (including
cancellation at any suspension point) and initial state, the store after
the run equals the store before it; MemoryRecords are created solely by
the explicit reflection operation, which appends exactly one record and
is not invoked inside the run. -/
theorem c9_run_never_writes_memory :
    (∀ (g : TradingAgentsGraph) (oracle : Oracle) (policy : RiskPolicy)
      (cancelAt : Option Nat) (symbol as_of_date : String) (st : RunSt),
      ((propagate g oracle policy cancelAt symbol as_of_date st).1).store = st.store)
  ∧ (∀ (ctx : RunCtx) (st : RunSt), ((runGraph ctx st).1).store = st.store)
  ∧ (∀ (store : List MemoryRecord) (id : Nat) (ret : Int) (now : Nat),
      reflect_and_remember store id ret now =
        store ++ [⟨id, ret, mkLesson id ret, now⟩]) := by
  refine ⟨?_, runGraph_store, fun _ _ _ _ => rfl⟩
  intro g oracle policy cancelAt symbol as_of_date st
  exact (andThen_store _ _ (fun p st1 => rfl)).trans (runGraph_store _ st)

theorem heapGet_set_ne (h : Heap) (c a : Nat) (k : String) (v : ConfigVal)
    (hne : c ≠ a) : heapGet (heapSet h c k v) a = heapGet h a := by
  unfold heapGet heapSet
  simp [List.getD, List.getElem?_set_ne hne]

theorem foldl_heapSet_get (c a : Nat) (hne : c ≠ a) :
    ∀ (L : List (String × ConfigVal)) (h : Heap),
    heapGet (L.foldl (fun hh kv => heapSet hh c kv.1 kv.2) h) a = heapGet h a := by
  intro L
  induction L with
  | nil => intro h; rfl
  | cons kv L ih =>
    intro h
    rw [List.foldl_cons, ih, heapGet_set_ne _ _ _ _ _ hne]

/-- C10: the configuration phase of `main.py` assigns its nine overrides
only to a fresh copy of the dict at `defaultAddr`, so the dict object at
`defaultAddr` (DEFAULT_CONFIG) is unchanged — every top-level entry has
the same value after the configuration phase as before — and the config
object the phase returns is a different object. -/
theorem c10_default_config_unchanged (h : Heap) (a : Nat) (ha : a < h.length) :
    heapGet ((buildConfig h a).1) a = heapGet h a ∧ (buildConfig h a).2 ≠ a := by
  unfold buildConfig heapAlloc
  dsimp only
  constructor
  · rw [foldl_heapSet_get h.length a (by omega)]
    unfold heapGet
    exact List.getD_append _ _ _ _ ha
  · show h.length ≠ a
    omega

/-- Witness for C10 at a concrete one-dict heap. -/
theorem c10_witness :
    heapGet ((buildConfig [[("x", ConfigVal.n 1)]] 0).1) 0 =
      heapGet [[("x", ConfigVal.n 1)]] 0
  ∧ (buildConfig [[("x", ConfigVal.n 1)]] 0).2 ≠ 0 :=
  c10_default_config_unchanged [[("x", ConfigVal.n 1)]] 0 (by decide)

end TradingAgents
